import Mathlib

/-!
Verification of the `mod-language` compiler front-end against its
specification.

The development shallowly embeds the Rust sources:

* `src/lib/bytecode.rs` — the bytecode data model and its binary codec
  (namespace `Bytecode`);
* `src/lib/common.rs` — identifiers and the operator precedence table
  (namespace `Common`);
* `src/lib/analyzer/mod.rs` — `Analyzer::create_item` (namespace `Analyzer`);
  its collaborators from the missing `ctx.rs` are modelled from the spec.

Machine integers are embedded as `Nat` bit patterns (signed integers and
floats are carried as their little-endian bit patterns, exactly as the codec
treats them); the Rust-level invariants (`u64` values fit in 64 bits, vector
lengths fit in `usize`, strings are valid UTF-8) appear as explicit
well-formedness hypotheses.  A byte buffer is `List Nat`; a decode cursor is
the returned suffix.  Recursive decoders take an explicit fuel argument so
that they are structurally recursive (hence computable by the kernel); fuel
is an upper bound on the recursion depth, and the round-trip theorems show
the wrappers' fuel is sufficient on every encoded value.
-/

namespace Bytecode

/-- Errors of the bytecode decoder, mirroring `enum DecodeError`. -/
inductive DecodeError where
  | EOF
  | InvalidString
  | UnexpectedValue
  deriving Repr, DecidableEq

/-- Little-endian byte list of `n`, `k` bytes wide; mirrors `to_le_bytes`
on the unsigned bit pattern (truncates above `2^(8*k)`, which the Rust
integer types rule out). -/
def toLeBytes : Nat → Nat → List Nat
  | 0, _ => []
  | k+1, n => (n % 256) :: toLeBytes k (n / 256)

/-- Value of a little-endian byte list; mirrors `from_le_bytes`. -/
def fromLe : List Nat → Nat
  | [] => 0
  | b :: r => b + 256 * fromLe r

/-- Mirrors `impl Decode for u8`: take one byte off the front of the buffer
or report `EOF`. -/
def decodeU8 : List Nat → Except DecodeError (Nat × List Nat)
  | [] => .error .EOF
  | b :: r => .ok (b, r)

/-- Mirrors the `BytePair`/`ByteQuad`/`ByteOctet` decoders: take `k` bytes
off the front of the buffer or report `EOF`. -/
def takeBytes (k : Nat) (buff : List Nat) :
    Except DecodeError (List Nat × List Nat) :=
  if buff.length ≥ k then .ok (buff.take k, buff.drop k) else .error .EOF

/-- Mirrors `impl Decode for u16` (little-endian). -/
def decodeU16 (buff : List Nat) : Except DecodeError (Nat × List Nat) := do
  let (bs, r) ← takeBytes 2 buff
  .ok (fromLe bs, r)

/-- Mirrors `impl Decode for u32` (little-endian). -/
def decodeU32 (buff : List Nat) : Except DecodeError (Nat × List Nat) := do
  let (bs, r) ← takeBytes 4 buff
  .ok (fromLe bs, r)

/-- Mirrors `impl Decode for u64` (little-endian); `usize` and the bytecode
ids decode through this. -/
def decodeU64 (buff : List Nat) : Except DecodeError (Nat × List Nat) := do
  let (bs, r) ← takeBytes 8 buff
  .ok (fromLe bs, r)

/-- Mirrors `impl Decode for bool`: one byte, strictly `1 ⇒ true`,
anything else `false`. -/
def decodeBool (buff : List Nat) : Except DecodeError (Bool × List Nat) := do
  let (b, r) ← decodeU8 buff
  .ok (decide (b = 1), r)

/-- Mirrors `impl Encode for bool`: `buff.push(*self as _)`. -/
def encodeBool (b : Bool) : List Nat :=
  [if b then 1 else 0]

/-- Mirrors `impl<D: Decode> Decode for Option<D>`: one discriminant byte
read through `bool::decode`, then the payload when the discriminant was
exactly `1`. -/
def decodeOption {α : Type} (d : List Nat → Except DecodeError (α × List Nat))
    (buff : List Nat) : Except DecodeError (Option α × List Nat) := do
  let (isSome, r) ← decodeBool buff
  if isSome then
    let (x, r2) ← d r
    .ok (some x, r2)
  else
    .ok (none, r)

/-- Mirrors `impl<E: Encode> Encode for Option<E>`. -/
def encodeOption {α : Type} (e : α → List Nat) : Option α → List Nat
  | some x => encodeBool true ++ e x
  | none => encodeBool false

/-- Decode `n` consecutive values with the element decoder `d`; the loop
body of `impl<D: Decode> Decode for Vec<D>`. -/
def decodeN {α : Type} (d : List Nat → Except DecodeError (α × List Nat)) :
    Nat → List Nat → Except DecodeError (List α × List Nat)
  | 0, buff => .ok ([], buff)
  | n+1, buff => do
    let (x, r) ← d buff
    let (xs, r2) ← decodeN d n r
    .ok (x :: xs, r2)

/-- Mirrors `impl<D: Decode> Decode for Vec<D>`: a `u64` element count then
that many elements. -/
def decodeVec {α : Type} (d : List Nat → Except DecodeError (α × List Nat))
    (buff : List Nat) : Except DecodeError (List α × List Nat) := do
  let (n, r) ← decodeU64 buff
  decodeN d n r

/-- Concatenation of element encodings; the loop of
`impl<E: Encode> Encode for Vec<E>`. -/
def encodeSeq {α : Type} (e : α → List Nat) : List α → List Nat
  | [] => []
  | x :: xs => e x ++ encodeSeq e xs

/-- Mirrors `impl<E: Encode> Encode for Vec<E>`: the `u64` length prefix
then the concatenated elements. -/
def encodeVec {α : Type} (e : α → List Nat) (xs : List α) : List Nat :=
  toLeBytes 8 xs.length ++ encodeSeq e xs

/-- Whether a byte list is valid UTF-8; models the success condition of
`std::str::from_utf8`.  It follows the byte-range table used by
`core::str::from_utf8` (Unicode Table 3-7): no overlongs, no surrogate
code points, maximum `U+10FFFF`. -/
def utf8Valid : List Nat → Bool
  | [] => true
  | b0 :: rest =>
    if b0 < 0x80 then utf8Valid rest
    else if 0xC2 ≤ b0 ∧ b0 ≤ 0xDF then
      match rest with
      | b1 :: rest2 => decide (0x80 ≤ b1 ∧ b1 ≤ 0xBF) && utf8Valid rest2
      | [] => false
    else if 0xE0 ≤ b0 ∧ b0 ≤ 0xEF then
      match rest with
      | b1 :: b2 :: rest3 =>
        decide ((if b0 = 0xE0 then 0xA0 else 0x80) ≤ b1 ∧
                b1 ≤ (if b0 = 0xED then 0x9F else 0xBF) ∧
                0x80 ≤ b2 ∧ b2 ≤ 0xBF) && utf8Valid rest3
      | _ => false
    else if 0xF0 ≤ b0 ∧ b0 ≤ 0xF4 then
      match rest with
      | b1 :: b2 :: b3 :: rest4 =>
        decide ((if b0 = 0xF0 then 0x90 else 0x80) ≤ b1 ∧
                b1 ≤ (if b0 = 0xF4 then 0x8F else 0xBF) ∧
                0x80 ≤ b2 ∧ b2 ≤ 0xBF ∧ 0x80 ≤ b3 ∧ b3 ≤ 0xBF) && utf8Valid rest4
      | _ => false
    else false

/-- A Rust `String` is embedded as its UTF-8 byte list. -/
def RustStr := List Nat

/-- Mirrors `impl Encode for str`: `u64` byte length then the raw bytes. -/
def encodeStr (s : List Nat) : List Nat :=
  toLeBytes 8 s.length ++ s

/-- Mirrors `impl Decode for String`: `u64` byte length, `EOF` when the
buffer is shorter, `InvalidString` when the bytes are not UTF-8. -/
def decodeStr (buff : List Nat) : Except DecodeError (List Nat × List Nat) := do
  let (length, r) ← decodeU64 buff
  if r.length < length then .error .EOF
  else if utf8Valid (r.take length) then .ok (r.take length, r.drop length)
  else .error .InvalidString

/-- Mirrors `enum IntrinsicType` (tag values 0..=11 in declaration
order). -/
inductive IntrinsicType where
  | Void | Bool | U8 | U16 | U32 | U64 | S8 | S16 | S32 | S64 | F32 | F64
  deriving Repr, DecidableEq

/-- Discriminant of an `IntrinsicType`, mirroring `*self as u8` under
`#[repr(u8)]`. -/
def IntrinsicType.tag : IntrinsicType → Nat
  | .Void => 0 | .Bool => 1 | .U8 => 2 | .U16 => 3 | .U32 => 4 | .U64 => 5
  | .S8 => 6 | .S16 => 7 | .S32 => 8 | .S64 => 9 | .F32 => 10 | .F64 => 11

/-- Inverse of `IntrinsicType.tag`, mirroring the `transmute` in
`IntrinsicType::decode`; only applied to bytes 0..=11 (the decoder's range
check), the catch-all is arbitrary. -/
def IntrinsicType.ofTag : Nat → IntrinsicType
  | 0 => .Void | 1 => .Bool | 2 => .U8 | 3 => .U16 | 4 => .U32 | 5 => .U64
  | 6 => .S8 | 7 => .S16 | 8 => .S32 | 9 => .S64 | 10 => .F32 | _ => .F64

/-- Mirrors `impl Encode for IntrinsicType`. -/
def IntrinsicType.encode (t : IntrinsicType) : List Nat := [t.tag]

/-- Mirrors `impl Decode for IntrinsicType`: one byte, range check
`Void as u8 ..= F64 as u8`, out of range is `UnexpectedValue`. -/
def IntrinsicType.decode (buff : List Nat) :
    Except DecodeError (IntrinsicType × List Nat) := do
  let (byte, r) ← decodeU8 buff
  if 0 ≤ byte ∧ byte ≤ 11 then .ok (IntrinsicType.ofTag byte, r)
  else .error .UnexpectedValue

/-- Mirrors `enum TypeDataKind` (tags 0..=3). -/
inductive TypeDataKind where
  | Intrinsic | Pointer | Struct | Function
  deriving Repr, DecidableEq

/-- Discriminant of a `TypeDataKind`. -/
def TypeDataKind.tag : TypeDataKind → Nat
  | .Intrinsic => 0 | .Pointer => 1 | .Struct => 2 | .Function => 3

/-- Inverse of `TypeDataKind.tag` (the decoder's `transmute`); only
applied to bytes 0..=3. -/
def TypeDataKind.ofTag : Nat → TypeDataKind
  | 0 => .Intrinsic | 1 => .Pointer | 2 => .Struct | _ => .Function

/-- Mirrors `impl Encode for TypeDataKind`. -/
def TypeDataKind.encode (k : TypeDataKind) : List Nat := [k.tag]

/-- Mirrors `impl Decode for TypeDataKind`: one byte, range check
`Intrinsic as u8 ..= Function as u8`. -/
def TypeDataKind.decode (buff : List Nat) :
    Except DecodeError (TypeDataKind × List Nat) := do
  let (byte, r) ← decodeU8 buff
  if 0 ≤ byte ∧ byte ≤ 3 then .ok (TypeDataKind.ofTag byte, r)
  else .error .UnexpectedValue

/-- Mirrors `enum AliasDataKind` (tags 0..=2), shared by `ImportData` and
`ExportData`. -/
inductive AliasDataKind where
  | Namespace | Global | Function
  deriving Repr, DecidableEq

/-- Discriminant of an `AliasDataKind`. -/
def AliasDataKind.tag : AliasDataKind → Nat
  | .Namespace => 0 | .Global => 1 | .Function => 2

/-- Inverse of `AliasDataKind.tag` (the decoder's `transmute`); only
applied to bytes 0..=2. -/
def AliasDataKind.ofTag : Nat → AliasDataKind
  | 0 => .Namespace | 1 => .Global | _ => .Function

/-- Mirrors `impl Encode for AliasDataKind`. -/
def AliasDataKind.encode (k : AliasDataKind) : List Nat := [k.tag]

/-- Mirrors `impl Decode for AliasDataKind`: one byte, range check
`Namespace as u8 ..= Function as u8`. -/
def AliasDataKind.decode (buff : List Nat) :
    Except DecodeError (AliasDataKind × List Nat) := do
  let (byte, r) ← decodeU8 buff
  if 0 ≤ byte ∧ byte ≤ 2 then .ok (AliasDataKind.ofTag byte, r)
  else .error .UnexpectedValue

/-- Mirrors `enum InstructionKind` (tags 0..=36 in declaration order). -/
inductive InstructionKind where
  | NoOp
  | ImmediateValue
  | CreateLocal
  | LocalAddress
  | GlobalAddress
  | FunctionAddress
  | GetElement
  | Cast
  | Load
  | Store
  | Discard
  | Add | Sub | Mul | Div | Rem | Neg
  | And | Or | Xor | LShift | RShift | Not
  | EQ | NEQ | LT | GT | LEQ | GEQ
  | CallDirect
  | CallIndirect
  | IfBlock
  | LoopBlock
  | Break
  | Continue
  | Return
  | ReturnVoid
  deriving Repr, DecidableEq

/-- Discriminant of an `InstructionKind`. -/
def InstructionKind.tag : InstructionKind → Nat
  | .NoOp => 0
  | .ImmediateValue => 1
  | .CreateLocal => 2
  | .LocalAddress => 3
  | .GlobalAddress => 4
  | .FunctionAddress => 5
  | .GetElement => 6
  | .Cast => 7
  | .Load => 8
  | .Store => 9
  | .Discard => 10
  | .Add => 11
  | .Sub => 12
  | .Mul => 13
  | .Div => 14
  | .Rem => 15
  | .Neg => 16
  | .And => 17
  | .Or => 18
  | .Xor => 19
  | .LShift => 20
  | .RShift => 21
  | .Not => 22
  | .EQ => 23
  | .NEQ => 24
  | .LT => 25
  | .GT => 26
  | .LEQ => 27
  | .GEQ => 28
  | .CallDirect => 29
  | .CallIndirect => 30
  | .IfBlock => 31
  | .LoopBlock => 32
  | .Break => 33
  | .Continue => 34
  | .Return => 35
  | .ReturnVoid => 36

/-- Inverse of `InstructionKind.tag` (the decoder's `transmute`); only
applied to bytes 0..=36. -/
def InstructionKind.ofTag : Nat → InstructionKind
  | 0 => .NoOp
  | 1 => .ImmediateValue
  | 2 => .CreateLocal
  | 3 => .LocalAddress
  | 4 => .GlobalAddress
  | 5 => .FunctionAddress
  | 6 => .GetElement
  | 7 => .Cast
  | 8 => .Load
  | 9 => .Store
  | 10 => .Discard
  | 11 => .Add
  | 12 => .Sub
  | 13 => .Mul
  | 14 => .Div
  | 15 => .Rem
  | 16 => .Neg
  | 17 => .And
  | 18 => .Or
  | 19 => .Xor
  | 20 => .LShift
  | 21 => .RShift
  | 22 => .Not
  | 23 => .EQ
  | 24 => .NEQ
  | 25 => .LT
  | 26 => .GT
  | 27 => .LEQ
  | 28 => .GEQ
  | 29 => .CallDirect
  | 30 => .CallIndirect
  | 31 => .IfBlock
  | 32 => .LoopBlock
  | 33 => .Break
  | 34 => .Continue
  | 35 => .Return
  | _ => .ReturnVoid

/-- Mirrors `impl Encode for InstructionKind`. -/
def InstructionKind.encode (k : InstructionKind) : List Nat := [k.tag]

/-- Mirrors `impl Decode for InstructionKind`: one byte, range check
`NoOp as u8 ..= ReturnVoid as u8`. -/
def InstructionKind.decode (buff : List Nat) :
    Except DecodeError (InstructionKind × List Nat) := do
  let (byte, r) ← decodeU8 buff
  if 0 ≤ byte ∧ byte ≤ 36 then .ok (InstructionKind.ofTag byte, r)
  else .error .UnexpectedValue

/-- The id newtypes `ID/TypeID/GlobalID/FunctionID/LocalID/ElementID` are
all `u64` wrappers encoded via `u64`; they are embedded as `Nat`, encoded
little-endian over 8 bytes. -/
def encodeId (n : Nat) : List Nat := toLeBytes 8 n

/-- Decoder for the `u64` id newtypes. -/
def decodeId : List Nat → Except DecodeError (Nat × List Nat) := decodeU64

/-- Mirrors `struct Version` (three `u8` fields). -/
structure Version where
  major : Nat
  minor : Nat
  patch : Nat
  deriving Repr, DecidableEq

/-- Mirrors `impl Encode for Version`: fields in declaration order. -/
def Version.encode (v : Version) : List Nat :=
  [v.major] ++ [v.minor] ++ [v.patch]

/-- Mirrors `impl Decode for Version`. -/
def Version.decode (buff : List Nat) :
    Except DecodeError (Version × List Nat) := do
  let (major, r1) ← decodeU8 buff
  let (minor, r2) ← decodeU8 r1
  let (patch, r3) ← decodeU8 r2
  .ok (⟨major, minor, patch⟩, r3)

/-- Mirrors `enum TypeData`.  `TypeID` lists are `List Nat`. -/
inductive TypeData where
  | Intrinsic (ity : IntrinsicType)
  | Pointer (idx : Nat)
  | Struct (fields : List Nat)
  | Function (parameters : List Nat) (result : Option Nat)
  deriving Repr, DecidableEq

/-- Mirrors `TypeData::get_kind`. -/
def TypeData.get_kind : TypeData → TypeDataKind
  | .Intrinsic _ => .Intrinsic
  | .Pointer _ => .Pointer
  | .Struct _ => .Struct
  | .Function _ _ => .Function

/-- Mirrors `impl Encode for TypeData`: the kind tag then the payload. -/
def TypeData.encode (td : TypeData) : List Nat :=
  td.get_kind.encode ++
  match td with
  | .Intrinsic ity => ity.encode
  | .Pointer idx => encodeId idx
  | .Struct fields => encodeVec encodeId fields
  | .Function parameters result =>
      encodeVec encodeId parameters ++ encodeOption encodeId result

/-- Mirrors `impl Decode for TypeData`. -/
def TypeData.decode (buff : List Nat) :
    Except DecodeError (TypeData × List Nat) := do
  let (kind, r) ← TypeDataKind.decode buff
  match kind with
  | .Intrinsic => do
    let (ity, r2) ← IntrinsicType.decode r
    .ok (.Intrinsic ity, r2)
  | .Pointer => do
    let (idx, r2) ← decodeId r
    .ok (.Pointer idx, r2)
  | .Struct => do
    let (fields, r2) ← decodeVec decodeId r
    .ok (.Struct fields, r2)
  | .Function => do
    let (parameters, r2) ← decodeVec decodeId r
    let (result, r3) ← decodeOption decodeId r2
    .ok (.Function parameters result, r3)

/-- Mirrors `enum ImmediateValue`.  Numeric payloads are carried as their
bit patterns: `U*`/`S*` of width `w` and `F32`/`F64` are a `Nat` below
`2^w` whose little-endian bytes are exactly what `encode` emits. -/
inductive ImmediateValue where
  | Bool (x : Bool)
  | U8 (x : Nat)
  | U16 (x : Nat)
  | U32 (x : Nat)
  | U64 (x : Nat)
  | S8 (x : Nat)
  | S16 (x : Nat)
  | S32 (x : Nat)
  | S64 (x : Nat)
  | F32 (x : Nat)
  | F64 (x : Nat)
  deriving Repr, DecidableEq

/-- Mirrors `ImmediateValue::get_intrinsic_type` (never `Void`). -/
def ImmediateValue.get_intrinsic_type : ImmediateValue → IntrinsicType
  | .Bool _ => .Bool
  | .U8 _ => .U8
  | .U16 _ => .U16
  | .U32 _ => .U32
  | .U64 _ => .U64
  | .S8 _ => .S8
  | .S16 _ => .S16
  | .S32 _ => .S32
  | .S64 _ => .S64
  | .F32 _ => .F32
  | .F64 _ => .F64

/-- Mirrors `impl Encode for ImmediateValue`: the intrinsic-type tag then
the payload in its declared width (signed and float payloads are emitted
as their little-endian bit patterns, exactly as `to_le_bytes` does). -/
def ImmediateValue.encode (v : ImmediateValue) : List Nat :=
  v.get_intrinsic_type.encode ++
  match v with
  | .Bool x => encodeBool x
  | .U8 x => [x]
  | .U16 x => toLeBytes 2 x
  | .U32 x => toLeBytes 4 x
  | .U64 x => toLeBytes 8 x
  | .S8 x => [x]
  | .S16 x => toLeBytes 2 x
  | .S32 x => toLeBytes 4 x
  | .S64 x => toLeBytes 8 x
  | .F32 x => toLeBytes 4 x
  | .F64 x => toLeBytes 8 x

/-- Mirrors `impl Decode for ImmediateValue`: an `IntrinsicType` tag, then
the payload of that width; a `Void` tag is `UnexpectedValue`. -/
def ImmediateValue.decode (buff : List Nat) :
    Except DecodeError (ImmediateValue × List Nat) := do
  let (ity, r) ← IntrinsicType.decode buff
  match ity with
  | .Bool => do let (x, r2) ← decodeBool r; .ok (.Bool x, r2)
  | .U8 => do let (x, r2) ← decodeU8 r; .ok (.U8 x, r2)
  | .U16 => do let (x, r2) ← decodeU16 r; .ok (.U16 x, r2)
  | .U32 => do let (x, r2) ← decodeU32 r; .ok (.U32 x, r2)
  | .U64 => do let (x, r2) ← decodeU64 r; .ok (.U64 x, r2)
  | .S8 => do let (x, r2) ← decodeU8 r; .ok (.S8 x, r2)
  | .S16 => do let (x, r2) ← decodeU16 r; .ok (.S16 x, r2)
  | .S32 => do let (x, r2) ← decodeU32 r; .ok (.S32 x, r2)
  | .S64 => do let (x, r2) ← decodeU64 r; .ok (.S64 x, r2)
  | .F32 => do let (x, r2) ← decodeU32 r; .ok (.F32 x, r2)
  | .F64 => do let (x, r2) ← decodeU64 r; .ok (.F64 x, r2)
  | .Void => .error .UnexpectedValue

mutual

/-- Mirrors `enum Instruction`.  `Vec<Instruction>` fields are embedded as
the isomorphic mutual inductive `InstructionSeq` (Lean 4.14 cannot build
structural recursion through a nested `List`). -/
inductive Instruction where
  | NoOp
  | ImmediateValue (imm : ImmediateValue)
  | CreateLocal (t_idx : Nat)
  | LocalAddress (l_idx : Nat)
  | GlobalAddress (g_idx : Nat)
  | FunctionAddress (f_idx : Nat)
  | GetElement (e_idx : Nat)
  | Cast (t_idx : Nat)
  | Load
  | Store
  | Discard
  | Add | Sub | Mul | Div | Rem | Neg
  | And | Or | Xor | LShift | RShift | Not
  | EQ | NEQ | LT | GT | LEQ | GEQ
  | CallDirect (f_idx : Nat)
  | CallIndirect
  | IfBlock (then_instrs else_instrs : InstructionSeq)
  | LoopBlock (loop_instrs : InstructionSeq)
  | Break
  | Continue
  | Return
  | ReturnVoid
  deriving Repr

/-- A sequence of instructions; isomorphic to `Vec<Instruction>`. -/
inductive InstructionSeq where
  | nil
  | cons (i : Instruction) (rest : InstructionSeq)
  deriving Repr

end

/-- Length of an `InstructionSeq` (the `len()` of the `Vec`). -/
def InstructionSeq.length : InstructionSeq → Nat
  | .nil => 0
  | .cons _ rest => rest.length + 1

/-- Mirrors `Instruction::get_kind`. -/
def Instruction.get_kind : Instruction → InstructionKind
  | .NoOp => .NoOp
  | .ImmediateValue _ => .ImmediateValue
  | .CreateLocal _ => .CreateLocal
  | .LocalAddress _ => .LocalAddress
  | .GlobalAddress _ => .GlobalAddress
  | .FunctionAddress _ => .FunctionAddress
  | .GetElement _ => .GetElement
  | .Cast _ => .Cast
  | .Load => .Load
  | .Store => .Store
  | .Discard => .Discard
  | .Add => .Add
  | .Sub => .Sub
  | .Mul => .Mul
  | .Div => .Div
  | .Rem => .Rem
  | .Neg => .Neg
  | .And => .And
  | .Or => .Or
  | .Xor => .Xor
  | .LShift => .LShift
  | .RShift => .RShift
  | .Not => .Not
  | .EQ => .EQ
  | .NEQ => .NEQ
  | .LT => .LT
  | .GT => .GT
  | .LEQ => .LEQ
  | .GEQ => .GEQ
  | .CallDirect _ => .CallDirect
  | .CallIndirect => .CallIndirect
  | .IfBlock _ _ => .IfBlock
  | .LoopBlock _ => .LoopBlock
  | .Break => .Break
  | .Continue => .Continue
  | .Return => .Return
  | .ReturnVoid => .ReturnVoid

mutual

/-- Operand bytes of an instruction (everything after the kind tag in
`impl Encode for Instruction`); the nested `Vec<Instruction>` encodings
are inlined so the recursion is structural. -/
def Instruction.encodePayload : Instruction → List Nat
  | .ImmediateValue imm => imm.encode
  | .CreateLocal t_idx => encodeId t_idx
  | .LocalAddress l_idx => encodeId l_idx
  | .GlobalAddress g_idx => encodeId g_idx
  | .FunctionAddress f_idx => encodeId f_idx
  | .GetElement e_idx => encodeId e_idx
  | .Cast t_idx => encodeId t_idx
  | .CallDirect f_idx => encodeId f_idx
  | .IfBlock then_instrs else_instrs =>
      (toLeBytes 8 then_instrs.length ++ then_instrs.encodeSeq) ++
      (toLeBytes 8 else_instrs.length ++ else_instrs.encodeSeq)
  | .LoopBlock loop_instrs =>
      toLeBytes 8 loop_instrs.length ++ loop_instrs.encodeSeq
  | _ => []
  termination_by structural i => i

/-- Concatenated encodings of a sequence of instructions (the element loop
of `Vec<Instruction>::encode`). -/
def InstructionSeq.encodeSeq : InstructionSeq → List Nat
  | .nil => []
  | .cons i rest => (i.get_kind.encode ++ i.encodePayload) ++ rest.encodeSeq
  termination_by structural l => l

end

/-- Mirrors `impl Encode for Instruction`: the kind tag then the
operands. -/
def Instruction.encode (i : Instruction) : List Nat :=
  i.get_kind.encode ++ i.encodePayload

/-- Mirrors `impl Encode for Vec<Instruction>`: `u64` length then the
concatenated elements. -/
def InstructionSeq.encodeVec (l : InstructionSeq) : List Nat :=
  toLeBytes 8 l.length ++ l.encodeSeq

mutual

/-- Fuel-indexed mirror of `impl Decode for Instruction`.  The fuel only
bounds the recursion depth (Rust's recursion terminates because every
recursive call consumes buffer bytes); the wrappers pass more than enough
fuel, and the round-trip theorems prove it sufficient for every encoded
value. -/
def decodeInstructionFuel : Nat → List Nat →
    Except DecodeError (Instruction × List Nat)
  | 0, _ => .error .EOF
  | f+1, buff => do
    let (kind, r) ← InstructionKind.decode buff
    match kind with
    | .NoOp => .ok (.NoOp, r)
    | .Load => .ok (.Load, r)
    | .Store => .ok (.Store, r)
    | .Discard => .ok (.Discard, r)
    | .Add => .ok (.Add, r)
    | .Sub => .ok (.Sub, r)
    | .Mul => .ok (.Mul, r)
    | .Div => .ok (.Div, r)
    | .Rem => .ok (.Rem, r)
    | .Neg => .ok (.Neg, r)
    | .And => .ok (.And, r)
    | .Or => .ok (.Or, r)
    | .Xor => .ok (.Xor, r)
    | .LShift => .ok (.LShift, r)
    | .RShift => .ok (.RShift, r)
    | .Not => .ok (.Not, r)
    | .EQ => .ok (.EQ, r)
    | .NEQ => .ok (.NEQ, r)
    | .LT => .ok (.LT, r)
    | .GT => .ok (.GT, r)
    | .LEQ => .ok (.LEQ, r)
    | .GEQ => .ok (.GEQ, r)
    | .CallIndirect => .ok (.CallIndirect, r)
    | .Break => .ok (.Break, r)
    | .Continue => .ok (.Continue, r)
    | .Return => .ok (.Return, r)
    | .ReturnVoid => .ok (.ReturnVoid, r)
    | .ImmediateValue => do
      let (imm, r2) ← ImmediateValue.decode r
      .ok (.ImmediateValue imm, r2)
    | .CreateLocal => do
      let (t_idx, r2) ← decodeId r
      .ok (.CreateLocal t_idx, r2)
    | .LocalAddress => do
      let (l_idx, r2) ← decodeId r
      .ok (.LocalAddress l_idx, r2)
    | .GlobalAddress => do
      let (g_idx, r2) ← decodeId r
      .ok (.GlobalAddress g_idx, r2)
    | .FunctionAddress => do
      let (f_idx, r2) ← decodeId r
      .ok (.FunctionAddress f_idx, r2)
    | .GetElement => do
      let (e_idx, r2) ← decodeId r
      .ok (.GetElement e_idx, r2)
    | .Cast => do
      let (t_idx, r2) ← decodeId r
      .ok (.Cast t_idx, r2)
    | .CallDirect => do
      let (f_idx, r2) ← decodeId r
      .ok (.CallDirect f_idx, r2)
    | .IfBlock => do
      let (then_instrs, r2) ← decodeInstructionVecFuel f r
      let (else_instrs, r3) ← decodeInstructionVecFuel f r2
      .ok (.IfBlock then_instrs else_instrs, r3)
    | .LoopBlock => do
      let (loop_instrs, r2) ← decodeInstructionVecFuel f r
      .ok (.LoopBlock loop_instrs, r2)

/-- Fuel-indexed mirror of `impl Decode for Vec<Instruction>`: a `u64`
count then that many instructions. -/
def decodeInstructionVecFuel : Nat → List Nat →
    Except DecodeError (InstructionSeq × List Nat)
  | 0, _ => .error .EOF
  | f+1, buff => do
    let (n, r) ← decodeU64 buff
    decodeInstructionNFuel f n r

/-- The element loop of `Vec<Instruction>::decode`. -/
def decodeInstructionNFuel : Nat → Nat → List Nat →
    Except DecodeError (InstructionSeq × List Nat)
  | _, 0, buff => .ok (.nil, buff)
  | 0, _+1, _ => .error .EOF
  | f+1, n+1, buff => do
    let (i, r) ← decodeInstructionFuel f buff
    let (rest, r2) ← decodeInstructionNFuel f n r
    .ok (.cons i rest, r2)

end

/-- Mirrors `impl Decode for Instruction`; the fuel argument strictly
exceeds the recursion depth possible on a buffer of this length. -/
def Instruction.decode (buff : List Nat) :
    Except DecodeError (Instruction × List Nat) :=
  decodeInstructionFuel (2 * buff.length + 2) buff

/-- Mirrors `impl Decode for Vec<Instruction>`. -/
def InstructionSeq.decodeVec (buff : List Nat) :
    Except DecodeError (InstructionSeq × List Nat) :=
  decodeInstructionVecFuel (2 * buff.length + 2) buff

mutual

/-- Mirrors `struct Import` (a name and variant data). -/
inductive Import where
  | mk (name : List Nat) (data : ImportData)
  deriving Repr

/-- Mirrors `enum ImportData`; `Vec<Import>` is the isomorphic
`ImportSeq`. -/
inductive ImportData where
  | Namespace (items : ImportSeq)
  | Global (g_idx t_idx : Nat)
  | Function (f_idx t_idx : Nat)
  deriving Repr

/-- A sequence of imports; isomorphic to `Vec<Import>`. -/
inductive ImportSeq where
  | nil
  | cons (i : Import) (rest : ImportSeq)
  deriving Repr

end

/-- Length of an `ImportSeq`. -/
def ImportSeq.length : ImportSeq → Nat
  | .nil => 0
  | .cons _ rest => rest.length + 1

/-- Mirrors `ImportData::get_kind`. -/
def ImportData.get_kind : ImportData → AliasDataKind
  | .Namespace _ => .Namespace
  | .Global _ _ => .Global
  | .Function _ _ => .Function

mutual

/-- Payload bytes of `impl Encode for ImportData` (after the kind tag);
the nested `Vec<Import>` encoding is inlined so the recursion is
structural. -/
def ImportData.encodePayload : ImportData → List Nat
  | .Namespace items => toLeBytes 8 items.length ++ items.encodeSeq
  | .Global g_idx t_idx => encodeId g_idx ++ encodeId t_idx
  | .Function f_idx t_idx => encodeId f_idx ++ encodeId t_idx
  termination_by structural d => d

/-- Concatenated encodings of a sequence of imports (each is name bytes
then kind tag then payload, as in `impl Encode for Import`). -/
def ImportSeq.encodeSeq : ImportSeq → List Nat
  | .nil => []
  | .cons (.mk name data) rest =>
      (encodeStr name ++ (data.get_kind.encode ++ data.encodePayload)) ++
      rest.encodeSeq
  termination_by structural l => l

end

/-- Mirrors `impl Encode for ImportData`. -/
def ImportData.encode (d : ImportData) : List Nat :=
  d.get_kind.encode ++ d.encodePayload

/-- Mirrors `impl Encode for Import`. -/
def Import.encode : Import → List Nat
  | .mk name data => encodeStr name ++ data.encode

/-- Mirrors `impl Encode for Vec<Import>`. -/
def ImportSeq.encodeVec (l : ImportSeq) : List Nat :=
  toLeBytes 8 l.length ++ l.encodeSeq

mutual

/-- Fuel-indexed mirror of `impl Decode for ImportData`. -/
def decodeImportDataFuel : Nat → List Nat →
    Except DecodeError (ImportData × List Nat)
  | 0, _ => .error .EOF
  | f+1, buff => do
    let (kind, r) ← AliasDataKind.decode buff
    match kind with
    | .Namespace => do
      let (n, r2) ← decodeU64 r
      let (items, r3) ← decodeImportNFuel f n r2
      .ok (.Namespace items, r3)
    | .Global => do
      let (g_idx, r2) ← decodeId r
      let (t_idx, r3) ← decodeId r2
      .ok (.Global g_idx t_idx, r3)
    | .Function => do
      let (f_idx, r2) ← decodeId r
      let (t_idx, r3) ← decodeId r2
      .ok (.Function f_idx t_idx, r3)

/-- The element loop of `Vec<Import>::decode`; each element is decoded as
in `impl Decode for Import` (name then data). -/
def decodeImportNFuel : Nat → Nat → List Nat →
    Except DecodeError (ImportSeq × List Nat)
  | _, 0, buff => .ok (.nil, buff)
  | 0, _+1, _ => .error .EOF
  | f+1, n+1, buff => do
    let (name, r) ← decodeStr buff
    let (data, r2) ← decodeImportDataFuel f r
    let (rest, r3) ← decodeImportNFuel f n r2
    .ok (.cons (.mk name data) rest, r3)

end

/-- Mirrors `impl Decode for ImportData`. -/
def ImportData.decode (buff : List Nat) :
    Except DecodeError (ImportData × List Nat) :=
  decodeImportDataFuel (2 * buff.length + 2) buff

/-- Mirrors `impl Decode for Import`. -/
def Import.decode (buff : List Nat) :
    Except DecodeError (Import × List Nat) := do
  let (name, r) ← decodeStr buff
  let (data, r2) ← ImportData.decode r
  .ok (.mk name data, r2)

/-- Mirrors `impl Decode for Vec<Import>`. -/
def ImportSeq.decodeVec (buff : List Nat) :
    Except DecodeError (ImportSeq × List Nat) := do
  let (n, r) ← decodeU64 buff
  decodeImportNFuel (2 * r.length + 2) n r

mutual

/-- Mirrors `struct Export` (a name and variant data). -/
inductive Export where
  | mk (name : List Nat) (data : ExportData)
  deriving Repr

/-- Mirrors `enum ExportData`; `Vec<Export>` is the isomorphic
`ExportSeq`. -/
inductive ExportData where
  | Namespace (items : ExportSeq)
  | Global (g_idx : Nat)
  | Function (f_idx : Nat)
  deriving Repr

/-- A sequence of exports; isomorphic to `Vec<Export>`. -/
inductive ExportSeq where
  | nil
  | cons (e : Export) (rest : ExportSeq)
  deriving Repr

end

/-- Length of an `ExportSeq`. -/
def ExportSeq.length : ExportSeq → Nat
  | .nil => 0
  | .cons _ rest => rest.length + 1

/-- Mirrors `ExportData::get_kind`. -/
def ExportData.get_kind : ExportData → AliasDataKind
  | .Namespace _ => .Namespace
  | .Global _ => .Global
  | .Function _ => .Function

mutual

/-- Payload bytes of `impl Encode for ExportData` (after the kind tag). -/
def ExportData.encodePayload : ExportData → List Nat
  | .Namespace items => toLeBytes 8 items.length ++ items.encodeSeq
  | .Global g_idx => encodeId g_idx
  | .Function f_idx => encodeId f_idx
  termination_by structural d => d

/-- Concatenated encodings of a sequence of exports. -/
def ExportSeq.encodeSeq : ExportSeq → List Nat
  | .nil => []
  | .cons (.mk name data) rest =>
      (encodeStr name ++ (data.get_kind.encode ++ data.encodePayload)) ++
      rest.encodeSeq
  termination_by structural l => l

end

/-- Mirrors `impl Encode for ExportData`. -/
def ExportData.encode (d : ExportData) : List Nat :=
  d.get_kind.encode ++ d.encodePayload

/-- Mirrors `impl Encode for Export`. -/
def Export.encode : Export → List Nat
  | .mk name data => encodeStr name ++ data.encode

/-- Mirrors `impl Encode for Vec<Export>`. -/
def ExportSeq.encodeVec (l : ExportSeq) : List Nat :=
  toLeBytes 8 l.length ++ l.encodeSeq

mutual

/-- Fuel-indexed mirror of `impl Decode for ExportData`. -/
def decodeExportDataFuel : Nat → List Nat →
    Except DecodeError (ExportData × List Nat)
  | 0, _ => .error .EOF
  | f+1, buff => do
    let (kind, r) ← AliasDataKind.decode buff
    match kind with
    | .Namespace => do
      let (n, r2) ← decodeU64 r
      let (items, r3) ← decodeExportNFuel f n r2
      .ok (.Namespace items, r3)
    | .Global => do
      let (g_idx, r2) ← decodeId r
      .ok (.Global g_idx, r2)
    | .Function => do
      let (f_idx, r2) ← decodeId r
      .ok (.Function f_idx, r2)

/-- The element loop of `Vec<Export>::decode`. -/
def decodeExportNFuel : Nat → Nat → List Nat →
    Except DecodeError (ExportSeq × List Nat)
  | _, 0, buff => .ok (.nil, buff)
  | 0, _+1, _ => .error .EOF
  | f+1, n+1, buff => do
    let (name, r) ← decodeStr buff
    let (data, r2) ← decodeExportDataFuel f r
    let (rest, r3) ← decodeExportNFuel f n r2
    .ok (.cons (.mk name data) rest, r3)

end

/-- Mirrors `impl Decode for ExportData`. -/
def ExportData.decode (buff : List Nat) :
    Except DecodeError (ExportData × List Nat) :=
  decodeExportDataFuel (2 * buff.length + 2) buff

/-- Mirrors `impl Decode for Export`. -/
def Export.decode (buff : List Nat) :
    Except DecodeError (Export × List Nat) := do
  let (name, r) ← decodeStr buff
  let (data, r2) ← ExportData.decode r
  .ok (.mk name data, r2)

/-- Mirrors `impl Decode for Vec<Export>`. -/
def ExportSeq.decodeVec (buff : List Nat) :
    Except DecodeError (ExportSeq × List Nat) := do
  let (n, r) ← decodeU64 buff
  decodeExportNFuel (2 * r.length + 2) n r

/-- Mirrors `struct Type` (`Type` is a Lean keyword, hence `Ty`). -/
structure Ty where
  id : Nat
  data : TypeData
  deriving Repr, DecidableEq

/-- Mirrors `impl Encode for Type`. -/
def Ty.encode (t : Ty) : List Nat :=
  encodeId t.id ++ t.data.encode

/-- Mirrors `impl Decode for Type`. -/
def Ty.decode (buff : List Nat) : Except DecodeError (Ty × List Nat) := do
  let (id, r) ← decodeId buff
  let (data, r2) ← TypeData.decode r
  .ok (⟨id, data⟩, r2)

/-- Mirrors `struct Global` (`initializer` is `Vec<Instruction>`). -/
structure Global where
  id : Nat
  ty : Nat
  initializer : InstructionSeq
  deriving Repr

/-- Mirrors `impl Encode for Global`. -/
def Global.encode (g : Global) : List Nat :=
  encodeId g.id ++ encodeId g.ty ++ g.initializer.encodeVec

/-- Mirrors `impl Decode for Global`. -/
def Global.decode (buff : List Nat) :
    Except DecodeError (Global × List Nat) := do
  let (id, r) ← decodeId buff
  let (ty, r2) ← decodeId r
  let (initializer, r3) ← InstructionSeq.decodeVec r2
  .ok (⟨id, ty, initializer⟩, r3)

/-- Mirrors `struct Function` (`body` is `Vec<Instruction>`). -/
structure Function where
  id : Nat
  ty : Nat
  body : InstructionSeq
  deriving Repr

/-- Mirrors `impl Encode for Function`. -/
def Function.encode (fn : Function) : List Nat :=
  encodeId fn.id ++ encodeId fn.ty ++ fn.body.encodeVec

/-- Mirrors `impl Decode for Function`. -/
def Function.decode (buff : List Nat) :
    Except DecodeError (Function × List Nat) := do
  let (id, r) ← decodeId buff
  let (ty, r2) ← decodeId r
  let (body, r3) ← InstructionSeq.decodeVec r2
  .ok (⟨id, ty, body⟩, r3)

/-- Mirrors `struct ImportModule`. -/
structure ImportModule where
  name : List Nat
  version : Version
  items : ImportSeq
  deriving Repr

/-- Mirrors `impl Encode for ImportModule`. -/
def ImportModule.encode (im : ImportModule) : List Nat :=
  encodeStr im.name ++ im.version.encode ++ im.items.encodeVec

/-- Mirrors `impl Decode for ImportModule`. -/
def ImportModule.decode (buff : List Nat) :
    Except DecodeError (ImportModule × List Nat) := do
  let (name, r) ← decodeStr buff
  let (version, r2) ← Version.decode r
  let (items, r3) ← ImportSeq.decodeVec r2
  .ok (⟨name, version, items⟩, r3)

/-- Mirrors `struct Module`, the top-level bytecode container. -/
structure Module where
  name : List Nat
  version : Version
  types : List Ty
  imports : List ImportModule
  globals : List Global
  functions : List Function
  exports : ExportSeq
  deriving Repr

/-- Mirrors `impl Encode for Module`: fields in declaration order. -/
def Module.encode (m : Module) : List Nat :=
  encodeStr m.name ++ m.version.encode ++
  encodeVec Ty.encode m.types ++
  encodeVec ImportModule.encode m.imports ++
  encodeVec Global.encode m.globals ++
  encodeVec Function.encode m.functions ++
  m.exports.encodeVec

/-- Mirrors `impl Decode for Module`. -/
def Module.decode (buff : List Nat) :
    Except DecodeError (Module × List Nat) := do
  let (name, r1) ← decodeStr buff
  let (version, r2) ← Version.decode r1
  let (types, r3) ← decodeVec Ty.decode r2
  let (imports, r4) ← decodeVec ImportModule.decode r3
  let (globals, r5) ← decodeVec Global.decode r4
  let (functions, r6) ← decodeVec Function.decode r5
  let (exports, r7) ← ExportSeq.decodeVec r6
  .ok (⟨name, version, types, imports, globals, functions, exports⟩, r7)

/-! Well-formedness: the invariants every value of the Rust types satisfies
by construction (machine integers fit their width, `Vec`/`String` lengths
fit in `usize`, `String`s are valid UTF-8).  The embedding carries them as
explicit predicates. -/

/-- Whether `n` fits in `w` bits. -/
def fitsIn (w n : Nat) : Bool := decide (n < 2 ^ w)

/-- Invariant of a Rust `String` embedded as bytes. -/
def wfStr (s : List Nat) : Bool := utf8Valid s && fitsIn 64 s.length

/-- Invariant of a `Vec` embedded as a `List`. -/
def listWf {α : Type} (p : α → Bool) (l : List α) : Bool :=
  fitsIn 64 l.length && l.all p

/-- Invariant of a `Version` (three `u8`s). -/
def Version.wf (v : Version) : Bool :=
  fitsIn 8 v.major && fitsIn 8 v.minor && fitsIn 8 v.patch

/-- Invariant of an `ImmediateValue` (each payload fits its width). -/
def immediateValueWf : ImmediateValue → Bool
  | .Bool _ => true
  | .U8 x => fitsIn 8 x
  | .U16 x => fitsIn 16 x
  | .U32 x => fitsIn 32 x
  | .U64 x => fitsIn 64 x
  | .S8 x => fitsIn 8 x
  | .S16 x => fitsIn 16 x
  | .S32 x => fitsIn 32 x
  | .S64 x => fitsIn 64 x
  | .F32 x => fitsIn 32 x
  | .F64 x => fitsIn 64 x

/-- Invariant of a `TypeData` (ids are `u64`s, `Vec` lengths fit). -/
def TypeData.wf : TypeData → Bool
  | .Intrinsic _ => true
  | .Pointer idx => fitsIn 64 idx
  | .Struct fields => listWf (fitsIn 64) fields
  | .Function parameters result =>
      listWf (fitsIn 64) parameters &&
      (match result with | none => true | some t => fitsIn 64 t)

mutual

/-- Invariant of an `Instruction`. -/
def Instruction.wf : Instruction → Bool
  | .ImmediateValue imm => immediateValueWf imm
  | .CreateLocal t_idx => fitsIn 64 t_idx
  | .LocalAddress l_idx => fitsIn 64 l_idx
  | .GlobalAddress g_idx => fitsIn 64 g_idx
  | .FunctionAddress f_idx => fitsIn 64 f_idx
  | .GetElement e_idx => fitsIn 64 e_idx
  | .Cast t_idx => fitsIn 64 t_idx
  | .CallDirect f_idx => fitsIn 64 f_idx
  | .IfBlock then_instrs else_instrs =>
      (fitsIn 64 then_instrs.length && then_instrs.wfSeq) &&
      (fitsIn 64 else_instrs.length && else_instrs.wfSeq)
  | .LoopBlock loop_instrs =>
      fitsIn 64 loop_instrs.length && loop_instrs.wfSeq
  | _ => true
  termination_by structural i => i

/-- Invariant of an `InstructionSeq`, elementwise. -/
def InstructionSeq.wfSeq : InstructionSeq → Bool
  | .nil => true
  | .cons i rest => i.wf && rest.wfSeq
  termination_by structural l => l

end

mutual

/-- Invariant of an `ImportData`. -/
def ImportData.wf : ImportData → Bool
  | .Namespace items => fitsIn 64 items.length && items.wfSeq
  | .Global g_idx t_idx => fitsIn 64 g_idx && fitsIn 64 t_idx
  | .Function f_idx t_idx => fitsIn 64 f_idx && fitsIn 64 t_idx
  termination_by structural d => d

/-- Invariant of an `ImportSeq`, elementwise. -/
def ImportSeq.wfSeq : ImportSeq → Bool
  | .nil => true
  | .cons (.mk name data) rest => wfStr name && data.wf && rest.wfSeq
  termination_by structural l => l

end

mutual

/-- Invariant of an `ExportData`. -/
def ExportData.wf : ExportData → Bool
  | .Namespace items => fitsIn 64 items.length && items.wfSeq
  | .Global g_idx => fitsIn 64 g_idx
  | .Function f_idx => fitsIn 64 f_idx
  termination_by structural d => d

/-- Invariant of an `ExportSeq`, elementwise. -/
def ExportSeq.wfSeq : ExportSeq → Bool
  | .nil => true
  | .cons (.mk name data) rest => wfStr name && data.wf && rest.wfSeq
  termination_by structural l => l

end

/-- Invariant of a `Type` entry. -/
def Ty.wf (t : Ty) : Bool := fitsIn 64 t.id && t.data.wf

/-- Invariant of a `Global`. -/
def Global.wf (g : Global) : Bool :=
  fitsIn 64 g.id && fitsIn 64 g.ty &&
  fitsIn 64 g.initializer.length && g.initializer.wfSeq

/-- Invariant of a `Function`. -/
def Function.wf (fn : Function) : Bool :=
  fitsIn 64 fn.id && fitsIn 64 fn.ty &&
  fitsIn 64 fn.body.length && fn.body.wfSeq

/-- Invariant of an `ImportModule`. -/
def ImportModule.wf (im : ImportModule) : Bool :=
  wfStr im.name && im.version.wf &&
  fitsIn 64 im.items.length && im.items.wfSeq

/-- Invariant of a `Module`. -/
def Module.wf (m : Module) : Bool :=
  wfStr m.name && m.version.wf &&
  listWf Ty.wf m.types &&
  listWf ImportModule.wf m.imports &&
  listWf Global.wf m.globals &&
  listWf Function.wf m.functions &&
  fitsIn 64 m.exports.length && m.exports.wfSeq

/-! Rust `PartialEq`, modelled on bit patterns.  It is structural equality
everywhere except at `f32`/`f64` payloads, where IEEE-754 comparison makes
any NaN unequal to everything (including itself) and `+0.0 == -0.0`. -/

/-- Whether a `Nat` below `2^32` is the bit pattern of an `f32` NaN
(exponent all ones, non-zero mantissa). -/
def f32BitsNaN (b : Nat) : Bool :=
  decide ((b / 2 ^ 23) % 2 ^ 8 = 0xFF ∧ b % 2 ^ 23 ≠ 0)

/-- Whether a `Nat` below `2^64` is the bit pattern of an `f64` NaN. -/
def f64BitsNaN (b : Nat) : Bool :=
  decide ((b / 2 ^ 52) % 2 ^ 11 = 0x7FF ∧ b % 2 ^ 52 ≠ 0)

/-- Rust `f32` `==` on bit patterns: false when either side is NaN,
otherwise bitwise equality up to `+0.0 == -0.0`. -/
def f32PartialEq (a b : Nat) : Bool :=
  !f32BitsNaN a && !f32BitsNaN b &&
  (a == b || (a % 2 ^ 31 == 0 && b % 2 ^ 31 == 0))

/-- Rust `f64` `==` on bit patterns. -/
def f64PartialEq (a b : Nat) : Bool :=
  !f64BitsNaN a && !f64BitsNaN b &&
  (a == b || (a % 2 ^ 63 == 0 && b % 2 ^ 63 == 0))

/-- Rust `PartialEq` for `ImmediateValue` (derived: same variant and equal
payloads, floats compared as IEEE values). -/
def immediateValueBeq : ImmediateValue → ImmediateValue → Bool
  | .Bool x, .Bool y => x == y
  | .U8 x, .U8 y => x == y
  | .U16 x, .U16 y => x == y
  | .U32 x, .U32 y => x == y
  | .U64 x, .U64 y => x == y
  | .S8 x, .S8 y => x == y
  | .S16 x, .S16 y => x == y
  | .S32 x, .S32 y => x == y
  | .S64 x, .S64 y => x == y
  | .F32 x, .F32 y => f32PartialEq x y
  | .F64 x, .F64 y => f64PartialEq x y
  | _, _ => false

mutual

/-- Rust `PartialEq` for `Instruction` (derived). -/
def Instruction.beq : Instruction → Instruction → Bool
  | .NoOp, .NoOp => true
  | .ImmediateValue x, .ImmediateValue y => immediateValueBeq x y
  | .CreateLocal x, .CreateLocal y => x == y
  | .LocalAddress x, .LocalAddress y => x == y
  | .GlobalAddress x, .GlobalAddress y => x == y
  | .FunctionAddress x, .FunctionAddress y => x == y
  | .GetElement x, .GetElement y => x == y
  | .Cast x, .Cast y => x == y
  | .Load, .Load => true
  | .Store, .Store => true
  | .Discard, .Discard => true
  | .Add, .Add => true
  | .Sub, .Sub => true
  | .Mul, .Mul => true
  | .Div, .Div => true
  | .Rem, .Rem => true
  | .Neg, .Neg => true
  | .And, .And => true
  | .Or, .Or => true
  | .Xor, .Xor => true
  | .LShift, .LShift => true
  | .RShift, .RShift => true
  | .Not, .Not => true
  | .EQ, .EQ => true
  | .NEQ, .NEQ => true
  | .LT, .LT => true
  | .GT, .GT => true
  | .LEQ, .LEQ => true
  | .GEQ, .GEQ => true
  | .CallDirect x, .CallDirect y => x == y
  | .CallIndirect, .CallIndirect => true
  | .IfBlock a b, .IfBlock a' b' => a.beqSeq a' && b.beqSeq b'
  | .LoopBlock a, .LoopBlock a' => a.beqSeq a'
  | .Break, .Break => true
  | .Continue, .Continue => true
  | .Return, .Return => true
  | .ReturnVoid, .ReturnVoid => true
  | _, _ => false
  termination_by structural i => i

/-- Rust `PartialEq` for `Vec<Instruction>`, elementwise. -/
def InstructionSeq.beqSeq : InstructionSeq → InstructionSeq → Bool
  | .nil, .nil => true
  | .cons i rest, .cons i' rest' => i.beq i' && rest.beqSeq rest'
  | _, _ => false
  termination_by structural l => l

end

/-- Elementwise `PartialEq` on embedded `Vec`s. -/
def listBeq {α : Type} (b : α → α → Bool) : List α → List α → Bool
  | [], [] => true
  | x :: xs, y :: ys => b x y && listBeq b xs ys
  | _, _ => false

/-- Rust `PartialEq` for `Global`. -/
def Global.beq (g g' : Global) : Bool :=
  g.id == g'.id && g.ty == g'.ty && g.initializer.beqSeq g'.initializer

/-- Rust `PartialEq` for `Function`. -/
def Function.beq (fn fn' : Function) : Bool :=
  fn.id == fn'.id && fn.ty == fn'.ty && fn.body.beqSeq fn'.body

mutual

/-- Rust `PartialEq` for `ImportData` (no floats inside, hence
structural). -/
def ImportData.beq : ImportData → ImportData → Bool
  | .Namespace items, .Namespace items' => items.beqSeq items'
  | .Global g t, .Global g' t' => g == g' && t == t'
  | .Function f t, .Function f' t' => f == f' && t == t'
  | _, _ => false
  termination_by structural d => d

/-- Rust `PartialEq` for `Vec<Import>`. -/
def ImportSeq.beqSeq : ImportSeq → ImportSeq → Bool
  | .nil, .nil => true
  | .cons (.mk name data) rest, .cons (.mk name' data') rest' =>
      name == name' && data.beq data' && rest.beqSeq rest'
  | _, _ => false
  termination_by structural l => l

end

mutual

/-- Rust `PartialEq` for `ExportData`. -/
def ExportData.beq : ExportData → ExportData → Bool
  | .Namespace items, .Namespace items' => items.beqSeq items'
  | .Global g, .Global g' => g == g'
  | .Function f, .Function f' => f == f'
  | _, _ => false
  termination_by structural d => d

/-- Rust `PartialEq` for `Vec<Export>`. -/
def ExportSeq.beqSeq : ExportSeq → ExportSeq → Bool
  | .nil, .nil => true
  | .cons (.mk name data) rest, .cons (.mk name' data') rest' =>
      name == name' && data.beq data' && rest.beqSeq rest'
  | _, _ => false
  termination_by structural l => l

end

/-- Rust `PartialEq` for `ImportModule`. -/
def ImportModule.beq (im im' : ImportModule) : Bool :=
  im.name == im'.name && im.version == im'.version && im.items.beqSeq im'.items

/-- Rust `PartialEq` for `Module` (the equality `assert_eq!` uses in the
repository's round-trip test). -/
def Module.beq (m m' : Module) : Bool :=
  m.name == m'.name && m.version == m'.version &&
  m.types == m'.types &&
  listBeq ImportModule.beq m.imports m'.imports &&
  listBeq Global.beq m.globals m'.globals &&
  listBeq Function.beq m.functions m'.functions &&
  m.exports.beqSeq m'.exports

/-- Whether an `ImmediateValue` carries no NaN float payload. -/
def immediateValueNoNaN : ImmediateValue → Bool
  | .F32 x => !f32BitsNaN x
  | .F64 x => !f64BitsNaN x
  | _ => true

mutual

/-- Whether an `Instruction` contains no NaN immediate. -/
def Instruction.noNaN : Instruction → Bool
  | .ImmediateValue imm => immediateValueNoNaN imm
  | .IfBlock then_instrs else_instrs =>
      then_instrs.noNaNSeq && else_instrs.noNaNSeq
  | .LoopBlock loop_instrs => loop_instrs.noNaNSeq
  | _ => true
  termination_by structural i => i

/-- Whether an `InstructionSeq` contains no NaN immediate. -/
def InstructionSeq.noNaNSeq : InstructionSeq → Bool
  | .nil => true
  | .cons i rest => i.noNaN && rest.noNaNSeq
  termination_by structural l => l

end

/-- Whether a `Module` contains no NaN immediate (in any global
initializer or function body). -/
def Module.noNaN (m : Module) : Bool :=
  m.globals.all (fun g => g.initializer.noNaNSeq) &&
  m.functions.all (fun fn => fn.body.noNaNSeq)

/-- Conversion from a `List` literal to an `InstructionSeq`. -/
def InstructionSeq.ofList : List Instruction → InstructionSeq
  | [] => .nil
  | i :: rest => .cons i (InstructionSeq.ofList rest)

/-- Conversion from a `List` literal to an `ImportSeq`. -/
def ImportSeq.ofList : List Import → ImportSeq
  | [] => .nil
  | i :: rest => .cons i (ImportSeq.ofList rest)

/-- Conversion from a `List` literal to an `ExportSeq`. -/
def ExportSeq.ofList : List Export → ExportSeq
  | [] => .nil
  | e :: rest => .cons e (ExportSeq.ofList rest)

/-- The concrete module of the repository test
`test_bytecode_encode_decode` (spec scenario S1); string literals appear
as their ASCII bytes. -/
def testModule : Module :=
  { name := [116, 101, 115, 116, 95, 109, 111, 100, 117, 108, 101]
    version := ⟨0, 0, 1⟩
    types :=
      [ ⟨0, .Intrinsic .S64⟩,
        ⟨1, .Function [0, 0] (some 0)⟩,
        ⟨2, .Function [] (some 0)⟩ ]
    imports :=
      [ { name := [116, 101, 115, 116, 95, 105, 109, 112, 111, 114, 116,
                   95, 109, 111, 100, 117, 108, 101]
          version := ⟨1, 2, 0⟩
          items := ImportSeq.ofList
            [ .mk [116, 101, 115, 116, 95, 105, 109, 112, 111, 114, 116,
                   95, 110, 97, 109, 101, 115, 112, 97, 99, 101]
                (.Namespace (ImportSeq.ofList
                  [ .mk [116, 101, 115, 116, 95, 105, 109, 112, 111, 114,
                         116, 95, 103, 108, 111, 98, 97, 108]
                      (.Global 0 0) ])),
              .mk [116, 101, 115, 116, 95, 105, 109, 112, 111, 114, 116,
                   95, 102, 117, 110, 99, 116, 105, 111, 110]
                (.Function 0 1) ] } ]
    globals :=
      [ ⟨1, 0, InstructionSeq.ofList [.ImmediateValue (.S64 99)]⟩,
        ⟨2, 0, InstructionSeq.ofList [.CallDirect 1]⟩ ]
    functions :=
      [ ⟨1, 2, InstructionSeq.ofList
          [.GlobalAddress 1, .Load, .ImmediateValue (.S64 1),
           .CallDirect 2, .Return]⟩,
        ⟨2, 1, InstructionSeq.ofList
          [.LocalAddress 0, .LocalAddress 1, .Sub, .Return]⟩ ]
    exports := ExportSeq.ofList
      [ .mk [116, 101, 115, 116, 95, 101, 120, 112, 111, 114, 116, 95,
             110, 97, 109, 101, 115, 112, 97, 99, 101]
          (.Namespace (ExportSeq.ofList
            [ .mk [116, 101, 115, 116, 95, 101, 120, 112, 111, 114, 116,
                   95, 102, 117, 110, 99, 116, 105, 111, 110]
                (.Function 1) ])),
        .mk [116, 101, 115, 116, 95, 101, 120, 112, 111, 114, 116, 95,
             103, 108, 111, 98, 97, 108]
          (.Global 1),
        .mk [116, 101, 115, 116, 95, 114, 101, 101, 120, 112, 111, 114,
             116]
          (.Global 0) ] }

/-- The `f64` bit pattern `0x7FF8000000000000`, the canonical quiet NaN
(`f64::NAN` in Rust). -/
def nan64Bits : Nat := 0x7FF8000000000000

/-- A tiny module whose single global initializer pushes the `f64` NaN
immediate; used to separate bit-exact round-trip from `PartialEq`
equality. -/
def nanModule : Module :=
  { name := []
    version := ⟨0, 0, 0⟩
    types := []
    imports := []
    globals := [⟨0, 0, InstructionSeq.ofList [.ImmediateValue (.F64 nan64Bits)]⟩]
    functions := []
    exports := .nil }

end Bytecode

namespace Common

/-- Mirrors `enum Operator` from `common.rs` (discriminants 0..=32 in
declaration order). -/
inductive Operator where
  | Not | And | Xor | Or | As
  | DoubleColon | RightArrow
  | AssignAdd | AssignSub | AssignMul | AssignDiv | AssignRem
  | Equal | NotEqual | GreaterOrEqual | LesserOrEqual | Greater | Lesser
  | Assign
  | Add | Sub | Mul | Div | Rem
  | AddressOf | Dereference
  | Comma | Colon | Semi
  | LeftParen | RightParen
  | LeftBracket | RightBracket
  deriving Repr, DecidableEq

/-- Discriminant of an `Operator`, mirroring `*self as u8` under
`#[repr(u8)]`. -/
def Operator.tag : Operator → Nat
  | .Not => 0 | .And => 1 | .Xor => 2 | .Or => 3 | .As => 4
  | .DoubleColon => 5 | .RightArrow => 6
  | .AssignAdd => 7 | .AssignSub => 8 | .AssignMul => 9 | .AssignDiv => 10
  | .AssignRem => 11
  | .Equal => 12 | .NotEqual => 13 | .GreaterOrEqual => 14
  | .LesserOrEqual => 15 | .Greater => 16 | .Lesser => 17
  | .Assign => 18
  | .Add => 19 | .Sub => 20 | .Mul => 21 | .Div => 22 | .Rem => 23
  | .AddressOf => 24 | .Dereference => 25
  | .Comma => 26 | .Colon => 27 | .Semi => 28
  | .LeftParen => 29 | .RightParen => 30
  | .LeftBracket => 31 | .RightBracket => 32

/-- Mirrors the constant `BINARY_PRECEDENCES` table. -/
def BINARY_PRECEDENCES : List (Operator × Nat) :=
  [ (.And, 20), (.Or, 20), (.Xor, 20),
    (.Equal, 30), (.NotEqual, 30), (.Lesser, 30), (.Greater, 30),
    (.LesserOrEqual, 30), (.GreaterOrEqual, 30),
    (.Add, 50), (.Sub, 50),
    (.Mul, 60), (.Div, 60), (.Rem, 60),
    (.LeftParen, 70) ]

/-- Outcome of evaluating the Rust `const fn get_binary_precedence` loop:
either a normal return of a precedence, or the panic that
`BINARY_PRECEDENCES[i]` raises when the index runs past the end of the
table. -/
inductive LookupResult where
  | value (p : Nat)
  | panicked
  deriving Repr, DecidableEq

/-- The loop of `get_binary_precedence`: walk the table comparing
discriminants (`op as u8 == operator as u8`).  The Rust loop has no
termination case of its own — when `i` reaches the table length,
`BINARY_PRECEDENCES[i]` panics with an index out of bounds, which the
empty-list case models as `.panicked`. -/
def precedenceLoop : List (Operator × Nat) → Operator → LookupResult
  | [], _ => .panicked
  | (op, prec) :: rest, operator =>
      if op.tag == operator.tag then .value prec
      else precedenceLoop rest operator

/-- Mirrors `get_binary_precedence`; `.value p` is the normal return of
`p`, `.panicked` the out-of-bounds panic. -/
def get_binary_precedence (operator : Operator) : LookupResult :=
  precedenceLoop BINARY_PRECEDENCES operator

/-- Mirrors `Identifier::MAX_LENGTH`. -/
def MAX_LENGTH : Nat := 64

/-- Mirrors `struct Identifier { vec: Vec<u8> }`. -/
structure Identifier where
  vec : List Nat
  deriving Repr, DecidableEq

/-- Mirrors `Identifier::new`. -/
def Identifier.new : Identifier := ⟨[]⟩

/-- Rust `char::is_ascii`: the code point is at most `0x7F`. -/
def charIsAscii (c : Char) : Bool := decide (c.toNat ≤ 0x7F)

/-- UTF-8 byte length of a Rust `&str` given as its characters; mirrors
`str::len()`. -/
def strByteLength (s : List Char) : Nat := (s.map Char.utf8Size).sum

/-- A Rust `char` cast `as u8` truncates to the low byte. -/
def charAsU8 (c : Char) : Nat := c.toNat % 256

/-- Mirrors `Identifier::set`: reject byte lengths over `MAX_LENGTH`, then
reject any non-ASCII char, otherwise clear and refill the byte vector.
Returns the success flag together with the (possibly unchanged)
identifier. -/
def Identifier.set (i : Identifier) (s : List Char) : Bool × Identifier :=
  if strByteLength s > MAX_LENGTH then (false, i)
  else if s.all charIsAscii then (true, ⟨s.map charAsU8⟩)
  else (false, i)

/-- Mirrors `Identifier::append`: push one char when it is ASCII and the
identifier is below `MAX_LENGTH` bytes. -/
def Identifier.append (i : Identifier) (c : Char) : Bool × Identifier :=
  if decide (i.vec.length < MAX_LENGTH) && charIsAscii c
  then (true, ⟨i.vec ++ [charAsU8 c]⟩)
  else (false, i)

/-- Mirrors `impl From<&str> for Identifier`: build an empty identifier,
call `set`, and discard its boolean result. -/
def Identifier.fromStr (s : List Char) : Identifier :=
  (Identifier.new.set s).2

end Common

namespace Analyzer

/-- Arena key; `GlobalKey` indexes the modelled item arena. -/
abbrev GlobalKey := Nat

/-- Opaque source region used by diagnostics (the analyzer assumes nothing
about it beyond equality). -/
abbrev SourceRegion := Nat

/-- Modelled from the spec: the context-graph `TypeData` of the missing
`ctx.rs` — "intrinsic, pointer-to-type, struct-of-types, function
signature" over arena keys (spec §3.1); interned by structural
equality. -/
inductive TypeData where
  | Intrinsic (it : Bytecode.IntrinsicType)
  | Pointer (k : GlobalKey)
  | Struct (fields : List GlobalKey)
  | Function (parameters : List GlobalKey) (result : Option GlobalKey)
  deriving Repr, DecidableEq

/-- Modelled from the spec: `TypeData::is_anon` of the missing `ctx.rs`.
Per the spec an anonymous type is "a type value with no user-given name":
pointer and function-signature types only arise from type expressions and
are anonymous; intrinsics and structs are bound by name. -/
def TypeData.is_anon : TypeData → Bool
  | .Pointer _ => true
  | .Function _ _ => true
  | _ => false

/-- Kinds of arena items, as reported by `GlobalItem::kind` in error
messages. -/
inductive GlobalItemKind where
  | Module | Namespace | TypeItem | Global | Function | Pseudonym
  deriving Repr, DecidableEq

/-- Modelled from the spec: the `GlobalItem` arena variant of the missing
`ctx.rs` (spec §3.1); only the payload `create_item` inspects — the
optional `TypeData` of a `Type` item — is carried (`Type` is a Lean
keyword, hence `TypeItem`). -/
inductive GlobalItem where
  | Module
  | Namespace
  | TypeItem (data : Option TypeData)
  | Global
  | Function
  | Pseudonym
  deriving Repr, DecidableEq

/-- Modelled from the spec: `GlobalItem::kind`. -/
def GlobalItem.kind : GlobalItem → GlobalItemKind
  | .Module => .Module
  | .Namespace => .Namespace
  | .TypeItem _ => .TypeItem
  | .Global => .Global
  | .Function => .Function
  | .Pseudonym => .Pseudonym

/-- One entry of a binding table: identifier, bound key, bind source
region. -/
abbrev BindEntry := Common.Identifier × GlobalKey × SourceRegion

/-- Modelled from the spec: `local_bindings.get_entry` — the key bound to
an identifier, if any. -/
def getEntry : List BindEntry → Common.Identifier → Option GlobalKey
  | [], _ => none
  | (id', k, _) :: rest, id =>
      if id' = id then some k else getEntry rest id

/-- Modelled from the spec: `local_bindings.get_bind_location` — the bind
region recorded for a key. -/
def getBindLocation : List BindEntry → GlobalKey → Option SourceRegion
  | [], _ => none
  | (_, k', o) :: rest, k =>
      if k' = k then some o else getBindLocation rest k

/-- Modelled from the spec: `local_bindings.set_entry_bound` — bind an
identifier to a key with its bind region, replacing any existing binding
of the identifier (binding tables hold one entry per identifier). -/
def setEntryBound : List BindEntry → Common.Identifier → GlobalKey →
    SourceRegion → List BindEntry
  | [], id, k, o => [(id, k, o)]
  | (id', k', o') :: rest, id, k, o =>
      if id' = id then (id, k, o) :: rest
      else (id', k', o') :: setEntryBound rest id k o

/-- Modelled from the spec: lookup in the anonymous-type intern map
(`context.anon_types.get`). -/
def lookupAnon : List (TypeData × GlobalKey) → TypeData → Option GlobalKey
  | [], _ => none
  | (td', k) :: rest, td => if td' = td then some k else lookupAnon rest td

/-- Severity of a diagnostic (`MessageKind`). -/
inductive MessageKind where
  | Notice | Warning | Error
  deriving Repr, DecidableEq

/-- A diagnostic record; the fields are the data interpolated into the
shadow-error `format!` string of `create_item` ("{new kind} `{identifier}`
shadows existing {prior kind} ... defined at [{prior location}]"). -/
structure Message where
  origin : SourceRegion
  kind : MessageKind
  newItemKind : GlobalItemKind
  ident : Common.Identifier
  shadowedKind : GlobalItemKind
  shadowedLocation : SourceRegion
  deriving Repr, DecidableEq

/-- The analyzer state `create_item` manipulates: the item arena (a list;
keys are indices, `insert` appends and returns the fresh index, keys are
stable), the anonymous-type intern map, the active module's
`local_bindings`, and the diagnostic sink (`SESSION` messages in insertion
order).  The arena and binding structures are modelled from the spec
(`ctx.rs` is not in the sources). -/
structure AnalyzerState where
  items : List GlobalItem
  anon_types : List (TypeData × GlobalKey)
  local_bindings : List BindEntry
  messages : List Message
  deriving Repr, DecidableEq

/-- Mirrors `Analyzer::create_item` (`analyzer/mod.rs`): report a shadowed
identifier with exactly one error citing the prior item's kind and bind
location, intern anonymous type data, insert the item, bind the
identifier, return the key.  `none` models the internal-error panics (the
`expect`s firing when a bound key is dangling). -/
def create_item (st : AnalyzerState) (identifier : Common.Identifier)
    (new_item : GlobalItem) (origin : SourceRegion) :
    Option (GlobalKey × AnalyzerState) :=
  let msgsOpt : Option (List Message) :=
    match getEntry st.local_bindings identifier with
    | some shadowed_key =>
      match st.items.get? shadowed_key,
            getBindLocation st.local_bindings shadowed_key with
      | some shadowed_item, some shadowed_location =>
          some (st.messages ++
            [⟨origin, .Error, new_item.kind, identifier,
              shadowed_item.kind, shadowed_location⟩])
      | _, _ => none
    | none => some st.messages
  match msgsOpt with
  | none => none
  | some msgs =>
    let (key, items', anon') :
        GlobalKey × List GlobalItem × List (TypeData × GlobalKey) :=
      match new_item with
      | .TypeItem (some td) =>
        if td.is_anon then
          match lookupAnon st.anon_types td with
          | some existing_key => (existing_key, st.items, st.anon_types)
          | none =>
              (st.items.length, st.items ++ [new_item],
               st.anon_types ++ [(td, st.items.length)])
        else (st.items.length, st.items ++ [new_item], st.anon_types)
      | _ => (st.items.length, st.items ++ [new_item], st.anon_types)
    some (key,
      { items := items',
        anon_types := anon',
        local_bindings := setEntryBound st.local_bindings identifier key origin,
        messages := msgs })

end Analyzer

/-! Round-trip lemmas for the codec, bottom-up. -/

namespace Bytecode

theorem toLeBytes_length (k n : Nat) : (toLeBytes k n).length = k := by
  induction k generalizing n with
  | zero => rfl
  | succ k ih => simp [toLeBytes, ih]

theorem fromLe_toLeBytes (k n : Nat) (h : n < 256 ^ k) :
    fromLe (toLeBytes k n) = n := by
  induction k generalizing n with
  | zero => simp at h; simp [toLeBytes, fromLe, h]
  | succ k ih =>
    simp only [toLeBytes, fromLe]
    rw [ih (n / 256) (by
      have hp : 256 ^ (k + 1) = 256 ^ k * 256 := by ring
      omega)]
    omega

theorem takeBytes_exact (k : Nat) (bs r : List Nat) (h : bs.length = k) :
    takeBytes k (bs ++ r) = .ok (bs, r) := by
  subst h
  simp only [takeBytes, List.length_append]
  rw [if_pos (by omega), List.take_left, List.drop_left]

theorem decodeU8_cons (b : Nat) (r : List Nat) :
    decodeU8 (b :: r) = .ok (b, r) := rfl

theorem decodeU16_toLeBytes (n : Nat) (r : List Nat) (h : n < 2 ^ 16) :
    decodeU16 (toLeBytes 2 n ++ r) = .ok (n, r) := by
  simp [decodeU16, takeBytes_exact 2 _ r (toLeBytes_length 2 n), bind, Except.bind,
    fromLe_toLeBytes 2 n (by rw [show (256 : Nat) ^ 2 = 2 ^ 16 by norm_num]; exact h)]

theorem decodeU32_toLeBytes (n : Nat) (r : List Nat) (h : n < 2 ^ 32) :
    decodeU32 (toLeBytes 4 n ++ r) = .ok (n, r) := by
  simp [decodeU32, takeBytes_exact 4 _ r (toLeBytes_length 4 n), bind, Except.bind,
    fromLe_toLeBytes 4 n (by rw [show (256 : Nat) ^ 4 = 2 ^ 32 by norm_num]; exact h)]

theorem decodeU64_toLeBytes (n : Nat) (r : List Nat) (h : n < 2 ^ 64) :
    decodeU64 (toLeBytes 8 n ++ r) = .ok (n, r) := by
  simp [decodeU64, takeBytes_exact 8 _ r (toLeBytes_length 8 n), bind, Except.bind,
    fromLe_toLeBytes 8 n (by rw [show (256 : Nat) ^ 8 = 2 ^ 64 by norm_num]; exact h)]

theorem decodeBool_encodeBool (b : Bool) (r : List Nat) :
    decodeBool (encodeBool b ++ r) = .ok (b, r) := by
  cases b <;> rfl

theorem decodeStr_encodeStr (s r : List Nat) (hv : utf8Valid s = true)
    (hl : s.length < 2 ^ 64) :
    decodeStr (encodeStr s ++ r) = .ok (s, r) := by
  simp only [encodeStr, List.append_assoc, decodeStr,
    decodeU64_toLeBytes s.length (s ++ r) hl, bind, Except.bind]
  rw [if_neg (by simp)]
  rw [show (s ++ r).take s.length = s from List.take_left s r,
      show (s ++ r).drop s.length = r from List.drop_left s r]
  simp [hv]

theorem decodeOption_encodeOption {α : Type}
    (d : List Nat → Except DecodeError (α × List Nat)) (e : α → List Nat)
    (o : Option α) (r : List Nat)
    (h : ∀ x, o = some x → d (e x ++ r) = .ok (x, r)) :
    decodeOption d (encodeOption e o ++ r) = .ok (o, r) := by
  cases o with
  | none => rfl
  | some x =>
    simp only [encodeOption, encodeBool, List.append_assoc, List.cons_append,
      List.nil_append, decodeOption, decodeBool, decodeU8, bind, Except.bind]
    simp [h x rfl, bind, Except.bind]

theorem decodeN_encodeSeq {α : Type}
    (d : List Nat → Except DecodeError (α × List Nat)) (e : α → List Nat)
    (l : List α) (r : List Nat)
    (h : ∀ x, x ∈ l → ∀ s, d (e x ++ s) = .ok (x, s)) :
    decodeN d l.length (encodeSeq e l ++ r) = .ok (l, r) := by
  induction l generalizing r with
  | nil => rfl
  | cons x xs ih =>
    simp only [encodeSeq, List.append_assoc, List.length_cons, decodeN,
      h x (by simp) (encodeSeq e xs ++ r), bind, Except.bind]
    simp [ih r (fun y hy s => h y (by simp [hy]) s), bind, Except.bind]

theorem decodeVec_encodeVec {α : Type}
    (d : List Nat → Except DecodeError (α × List Nat)) (e : α → List Nat)
    (l : List α) (r : List Nat) (hl : l.length < 2 ^ 64)
    (h : ∀ x, x ∈ l → ∀ s, d (e x ++ s) = .ok (x, s)) :
    decodeVec d (encodeVec e l ++ r) = .ok (l, r) := by
  simp only [encodeVec, List.append_assoc, decodeVec,
    decodeU64_toLeBytes l.length (encodeSeq e l ++ r) hl, bind, Except.bind]
  exact decodeN_encodeSeq d e l r h

theorem intrinsicType_decode_encode (t : IntrinsicType) (r : List Nat) :
    IntrinsicType.decode (t.encode ++ r) = .ok (t, r) := by
  cases t <;> rfl

theorem typeDataKind_decode_encode (k : TypeDataKind) (r : List Nat) :
    TypeDataKind.decode (k.encode ++ r) = .ok (k, r) := by
  cases k <;> rfl

theorem aliasDataKind_decode_encode (k : AliasDataKind) (r : List Nat) :
    AliasDataKind.decode (k.encode ++ r) = .ok (k, r) := by
  cases k <;> rfl

theorem instructionKind_decode_encode (k : InstructionKind) (r : List Nat) :
    InstructionKind.decode (k.encode ++ r) = .ok (k, r) := by
  cases k <;> rfl

theorem version_decode_encode (v : Version) (r : List Nat) :
    Version.decode (v.encode ++ r) = .ok (v, r) := by
  obtain ⟨ma, mi, pa⟩ := v
  rfl

theorem immediateValue_decode_encode (v : ImmediateValue) (r : List Nat)
    (h : immediateValueWf v = true) :
    ImmediateValue.decode (v.encode ++ r) = .ok (v, r) := by
  cases v with
  | Bool x => cases x <;> rfl
  | U8 x => rfl
  | S8 x => rfl
  | U16 x =>
    simp only [immediateValueWf, fitsIn, decide_eq_true_eq] at h
    simp [ImmediateValue.encode, ImmediateValue.get_intrinsic_type,
      IntrinsicType.encode, IntrinsicType.tag, ImmediateValue.decode,
      IntrinsicType.decode, decodeU8, bind, Except.bind, pure, Except.pure,
      IntrinsicType.ofTag, decodeU16_toLeBytes x r h]
  | U32 x =>
    simp only [immediateValueWf, fitsIn, decide_eq_true_eq] at h
    simp [ImmediateValue.encode, ImmediateValue.get_intrinsic_type,
      IntrinsicType.encode, IntrinsicType.tag, ImmediateValue.decode,
      IntrinsicType.decode, decodeU8, bind, Except.bind, pure, Except.pure,
      IntrinsicType.ofTag, decodeU32_toLeBytes x r h]
  | U64 x =>
    simp only [immediateValueWf, fitsIn, decide_eq_true_eq] at h
    simp [ImmediateValue.encode, ImmediateValue.get_intrinsic_type,
      IntrinsicType.encode, IntrinsicType.tag, ImmediateValue.decode,
      IntrinsicType.decode, decodeU8, bind, Except.bind, pure, Except.pure,
      IntrinsicType.ofTag, decodeU64_toLeBytes x r h]
  | S16 x =>
    simp only [immediateValueWf, fitsIn, decide_eq_true_eq] at h
    simp [ImmediateValue.encode, ImmediateValue.get_intrinsic_type,
      IntrinsicType.encode, IntrinsicType.tag, ImmediateValue.decode,
      IntrinsicType.decode, decodeU8, bind, Except.bind, pure, Except.pure,
      IntrinsicType.ofTag, decodeU16_toLeBytes x r h]
  | S32 x =>
    simp only [immediateValueWf, fitsIn, decide_eq_true_eq] at h
    simp [ImmediateValue.encode, ImmediateValue.get_intrinsic_type,
      IntrinsicType.encode, IntrinsicType.tag, ImmediateValue.decode,
      IntrinsicType.decode, decodeU8, bind, Except.bind, pure, Except.pure,
      IntrinsicType.ofTag, decodeU32_toLeBytes x r h]
  | S64 x =>
    simp only [immediateValueWf, fitsIn, decide_eq_true_eq] at h
    simp [ImmediateValue.encode, ImmediateValue.get_intrinsic_type,
      IntrinsicType.encode, IntrinsicType.tag, ImmediateValue.decode,
      IntrinsicType.decode, decodeU8, bind, Except.bind, pure, Except.pure,
      IntrinsicType.ofTag, decodeU64_toLeBytes x r h]
  | F32 x =>
    simp only [immediateValueWf, fitsIn, decide_eq_true_eq] at h
    simp [ImmediateValue.encode, ImmediateValue.get_intrinsic_type,
      IntrinsicType.encode, IntrinsicType.tag, ImmediateValue.decode,
      IntrinsicType.decode, decodeU8, bind, Except.bind, pure, Except.pure,
      IntrinsicType.ofTag, decodeU32_toLeBytes x r h]
  | F64 x =>
    simp only [immediateValueWf, fitsIn, decide_eq_true_eq] at h
    simp [ImmediateValue.encode, ImmediateValue.get_intrinsic_type,
      IntrinsicType.encode, IntrinsicType.tag, ImmediateValue.decode,
      IntrinsicType.decode, decodeU8, bind, Except.bind, pure, Except.pure,
      IntrinsicType.ofTag, decodeU64_toLeBytes x r h]

end Bytecode

namespace Bytecode

theorem typeData_decode_encode (td : TypeData) (r : List Nat)
    (h : td.wf = true) :
    TypeData.decode (td.encode ++ r) = .ok (td, r) := by
  cases td with
  | Intrinsic ity =>
    simp [TypeData.encode, TypeData.get_kind, TypeDataKind.encode,
      TypeDataKind.tag, TypeData.decode, TypeDataKind.decode, decodeU8,
      bind, Except.bind, pure, Except.pure, TypeDataKind.ofTag,
      intrinsicType_decode_encode ity r]
  | Pointer idx =>
    simp only [TypeData.wf, fitsIn, decide_eq_true_eq] at h
    simp [TypeData.encode, TypeData.get_kind, TypeDataKind.encode,
      TypeDataKind.tag, TypeData.decode, TypeDataKind.decode, decodeU8,
      bind, Except.bind, pure, Except.pure, TypeDataKind.ofTag, encodeId,
      decodeId, decodeU64_toLeBytes idx r h]
  | Struct fields =>
    simp only [TypeData.wf, listWf, Bool.and_eq_true, fitsIn,
      decide_eq_true_eq, List.all_eq_true] at h
    simp [TypeData.encode, TypeData.get_kind, TypeDataKind.encode,
      TypeDataKind.tag, TypeData.decode, TypeDataKind.decode, decodeU8,
      bind, Except.bind, pure, Except.pure, TypeDataKind.ofTag,
      decodeVec_encodeVec decodeId encodeId fields r h.1
        (fun x hx s => decodeU64_toLeBytes x s (by
          have := h.2 x hx; simpa [fitsIn] using this))]
  | Function parameters result =>
    simp only [TypeData.wf, listWf, Bool.and_eq_true, fitsIn,
      decide_eq_true_eq, List.all_eq_true] at h
    have hvec : ∀ s, decodeVec decodeId (encodeVec encodeId parameters ++ s) =
        .ok (parameters, s) := fun s =>
      decodeVec_encodeVec decodeId encodeId parameters s h.1.1
        (fun x hx s' => decodeU64_toLeBytes x s' (by
          have := h.1.2 x hx; simpa [fitsIn] using this))
    have hopt : decodeOption decodeId (encodeOption encodeId result ++ r) =
        .ok (result, r) :=
      decodeOption_encodeOption decodeId encodeId result r (by
        intro x hx
        subst hx
        refine decodeU64_toLeBytes x r ?_
        rcases h with ⟨-, h2⟩
        simpa [fitsIn] using h2)
    simp [TypeData.encode, TypeData.get_kind, TypeDataKind.encode,
      TypeDataKind.tag, TypeData.decode, TypeDataKind.decode, decodeU8,
      bind, Except.bind, pure, Except.pure, TypeDataKind.ofTag, hvec, hopt]

theorem ty_decode_encode (t : Ty) (r : List Nat) (h : t.wf = true) :
    Ty.decode (t.encode ++ r) = .ok (t, r) := by
  obtain ⟨id, data⟩ := t
  simp only [Ty.wf, Bool.and_eq_true, fitsIn, decide_eq_true_eq] at h
  simp [Ty.encode, Ty.decode, encodeId, decodeId, List.append_assoc,
    bind, Except.bind, decodeU64_toLeBytes id _ h.1,
    typeData_decode_encode data r h.2]

end Bytecode

namespace Bytecode

theorem instruction_encode_length_pos (i : Instruction) :
    1 ≤ (Instruction.encode i).length := by
  simp [Instruction.encode, InstructionKind.encode]

/-- One evaluation step of `decodeInstructionVecFuel` on an encoded
vector, given the element loop's result. -/
theorem decodeInstructionVecFuel_step (l : InstructionSeq) (s : List Nat)
    (f : Nat) (hlen : l.length < 2 ^ 64)
    (h : decodeInstructionNFuel f l.length (l.encodeSeq ++ s) = .ok (l, s)) :
    decodeInstructionVecFuel (f + 1) ((toLeBytes 8 l.length ++ l.encodeSeq) ++ s) =
      .ok (l, s) := by
  simp [decodeInstructionVecFuel, List.append_assoc, bind, Except.bind,
    decodeU64_toLeBytes l.length (l.encodeSeq ++ s) hlen, h]

mutual

theorem instructionRT (i : Instruction) : ∀ (s : List Nat) (f : Nat),
    Instruction.wf i = true → 2 * (Instruction.encode i).length ≤ f →
    decodeInstructionFuel f (Instruction.encode i ++ s) = .ok (i, s) := by
  cases i with
  | IfBlock a b =>
    intro s f hwf hf
    simp only [Instruction.wf, Bool.and_eq_true, fitsIn,
      decide_eq_true_eq] at hwf
    obtain ⟨⟨hla, hwa⟩, hlb, hwb⟩ := hwf
    simp only [Instruction.encode, Instruction.get_kind,
      InstructionKind.encode, InstructionKind.tag, Instruction.encodePayload,
      List.length_cons, List.length_append, toLeBytes_length,
      List.cons_append, List.nil_append] at hf
    obtain ⟨f'', rfl⟩ : ∃ g, f = g + 2 := ⟨f - 2, by omega⟩
    have ha : decodeInstructionNFuel f'' a.length
        (a.encodeSeq ++ ((toLeBytes 8 b.length ++ b.encodeSeq) ++ s)) =
        .ok (a, (toLeBytes 8 b.length ++ b.encodeSeq) ++ s) :=
      instructionSeqRT a ((toLeBytes 8 b.length ++ b.encodeSeq) ++ s) f''
        hwa (by omega)
    have hb : decodeInstructionNFuel f'' b.length (b.encodeSeq ++ s) =
        .ok (b, s) := instructionSeqRT b s f'' hwb (by omega)
    have hva := decodeInstructionVecFuel_step a
      ((toLeBytes 8 b.length ++ b.encodeSeq) ++ s) f'' hla ha
    have hvb := decodeInstructionVecFuel_step b s f'' hlb hb
    simp only [Instruction.encode, Instruction.get_kind,
      InstructionKind.encode, InstructionKind.tag, Instruction.encodePayload,
      List.cons_append, List.nil_append, List.append_assoc]
    show decodeInstructionFuel (f'' + 1 + 1) _ = _
    simp only [decodeInstructionFuel, InstructionKind.decode, decodeU8,
      bind, Except.bind, pure, Except.pure, InstructionKind.ofTag]
    simp only [show ((0 : Nat) ≤ 31 ∧ (31 : Nat) ≤ 36) = True by simp,
      if_true]
    simp only [List.append_assoc] at hva hvb ⊢
    simp only [hva, hvb]
  | LoopBlock a =>
    intro s f hwf hf
    simp only [Instruction.wf, Bool.and_eq_true, fitsIn,
      decide_eq_true_eq] at hwf
    obtain ⟨hla, hwa⟩ := hwf
    simp only [Instruction.encode, Instruction.get_kind,
      InstructionKind.encode, InstructionKind.tag, Instruction.encodePayload,
      List.length_cons, List.length_append, toLeBytes_length,
      List.cons_append, List.nil_append] at hf
    obtain ⟨f'', rfl⟩ : ∃ g, f = g + 2 := ⟨f - 2, by omega⟩
    have ha : decodeInstructionNFuel f'' a.length (a.encodeSeq ++ s) =
        .ok (a, s) := instructionSeqRT a s f'' hwa (by omega)
    have hva := decodeInstructionVecFuel_step a s f'' hla ha
    simp only [Instruction.encode, Instruction.get_kind,
      InstructionKind.encode, InstructionKind.tag, Instruction.encodePayload,
      List.cons_append, List.nil_append, List.append_assoc]
    show decodeInstructionFuel (f'' + 1 + 1) _ = _
    simp only [decodeInstructionFuel, InstructionKind.decode, decodeU8,
      bind, Except.bind, pure, Except.pure, InstructionKind.ofTag]
    simp only [show ((0 : Nat) ≤ 32 ∧ (32 : Nat) ≤ 36) = True by simp,
      if_true]
    rw [show (toLeBytes 8 a.length ++ (a.encodeSeq ++ s)) =
        ((toLeBytes 8 a.length ++ a.encodeSeq) ++ s) by
      simp [List.append_assoc]]
    rw [hva]
  | ImmediateValue imm =>
    intro s f hwf hf
    simp only [Instruction.wf] at hwf
    simp only [Instruction.encode, Instruction.get_kind,
      InstructionKind.encode, InstructionKind.tag, Instruction.encodePayload,
      List.length_cons, List.cons_append, List.nil_append,
      List.append_assoc] at hf ⊢
    obtain ⟨f', rfl⟩ : ∃ g, f = g + 1 := ⟨f - 1, by omega⟩
    simp [decodeInstructionFuel, InstructionKind.decode, decodeU8, bind,
      Except.bind, pure, Except.pure, InstructionKind.ofTag,
      immediateValue_decode_encode imm s hwf]
  | CreateLocal t_idx =>
    intro s f hwf hf
    simp only [Instruction.wf, fitsIn, decide_eq_true_eq] at hwf
    simp only [Instruction.encode, Instruction.get_kind,
      InstructionKind.encode, InstructionKind.tag, Instruction.encodePayload,
      List.length_cons, List.cons_append, List.nil_append,
      List.append_assoc] at hf ⊢
    obtain ⟨f', rfl⟩ : ∃ g, f = g + 1 := ⟨f - 1, by omega⟩
    simp [decodeInstructionFuel, InstructionKind.decode, decodeU8, bind,
      Except.bind, pure, Except.pure, InstructionKind.ofTag, encodeId,
      decodeId, decodeU64_toLeBytes t_idx s hwf]
  | LocalAddress l_idx =>
    intro s f hwf hf
    simp only [Instruction.wf, fitsIn, decide_eq_true_eq] at hwf
    simp only [Instruction.encode, Instruction.get_kind,
      InstructionKind.encode, InstructionKind.tag, Instruction.encodePayload,
      List.length_cons, List.cons_append, List.nil_append,
      List.append_assoc] at hf ⊢
    obtain ⟨f', rfl⟩ : ∃ g, f = g + 1 := ⟨f - 1, by omega⟩
    simp [decodeInstructionFuel, InstructionKind.decode, decodeU8, bind,
      Except.bind, pure, Except.pure, InstructionKind.ofTag, encodeId,
      decodeId, decodeU64_toLeBytes l_idx s hwf]
  | GlobalAddress g_idx =>
    intro s f hwf hf
    simp only [Instruction.wf, fitsIn, decide_eq_true_eq] at hwf
    simp only [Instruction.encode, Instruction.get_kind,
      InstructionKind.encode, InstructionKind.tag, Instruction.encodePayload,
      List.length_cons, List.cons_append, List.nil_append,
      List.append_assoc] at hf ⊢
    obtain ⟨f', rfl⟩ : ∃ g, f = g + 1 := ⟨f - 1, by omega⟩
    simp [decodeInstructionFuel, InstructionKind.decode, decodeU8, bind,
      Except.bind, pure, Except.pure, InstructionKind.ofTag, encodeId,
      decodeId, decodeU64_toLeBytes g_idx s hwf]
  | FunctionAddress f_idx =>
    intro s f hwf hf
    simp only [Instruction.wf, fitsIn, decide_eq_true_eq] at hwf
    simp only [Instruction.encode, Instruction.get_kind,
      InstructionKind.encode, InstructionKind.tag, Instruction.encodePayload,
      List.length_cons, List.cons_append, List.nil_append,
      List.append_assoc] at hf ⊢
    obtain ⟨f', rfl⟩ : ∃ g, f = g + 1 := ⟨f - 1, by omega⟩
    simp [decodeInstructionFuel, InstructionKind.decode, decodeU8, bind,
      Except.bind, pure, Except.pure, InstructionKind.ofTag, encodeId,
      decodeId, decodeU64_toLeBytes f_idx s hwf]
  | GetElement e_idx =>
    intro s f hwf hf
    simp only [Instruction.wf, fitsIn, decide_eq_true_eq] at hwf
    simp only [Instruction.encode, Instruction.get_kind,
      InstructionKind.encode, InstructionKind.tag, Instruction.encodePayload,
      List.length_cons, List.cons_append, List.nil_append,
      List.append_assoc] at hf ⊢
    obtain ⟨f', rfl⟩ : ∃ g, f = g + 1 := ⟨f - 1, by omega⟩
    simp [decodeInstructionFuel, InstructionKind.decode, decodeU8, bind,
      Except.bind, pure, Except.pure, InstructionKind.ofTag, encodeId,
      decodeId, decodeU64_toLeBytes e_idx s hwf]
  | Cast t_idx =>
    intro s f hwf hf
    simp only [Instruction.wf, fitsIn, decide_eq_true_eq] at hwf
    simp only [Instruction.encode, Instruction.get_kind,
      InstructionKind.encode, InstructionKind.tag, Instruction.encodePayload,
      List.length_cons, List.cons_append, List.nil_append,
      List.append_assoc] at hf ⊢
    obtain ⟨f', rfl⟩ : ∃ g, f = g + 1 := ⟨f - 1, by omega⟩
    simp [decodeInstructionFuel, InstructionKind.decode, decodeU8, bind,
      Except.bind, pure, Except.pure, InstructionKind.ofTag, encodeId,
      decodeId, decodeU64_toLeBytes t_idx s hwf]
  | CallDirect f_idx =>
    intro s f hwf hf
    simp only [Instruction.wf, fitsIn, decide_eq_true_eq] at hwf
    simp only [Instruction.encode, Instruction.get_kind,
      InstructionKind.encode, InstructionKind.tag, Instruction.encodePayload,
      List.length_cons, List.cons_append, List.nil_append,
      List.append_assoc] at hf ⊢
    obtain ⟨f', rfl⟩ : ∃ g, f = g + 1 := ⟨f - 1, by omega⟩
    simp [decodeInstructionFuel, InstructionKind.decode, decodeU8, bind,
      Except.bind, pure, Except.pure, InstructionKind.ofTag, encodeId,
      decodeId, decodeU64_toLeBytes f_idx s hwf]
  | NoOp =>
    intro s f hwf hf
    obtain ⟨f', rfl⟩ : ∃ g, f = g + 1 :=
      ⟨f - 1, by simp [Instruction.encode, InstructionKind.encode] at hf; omega⟩
    rfl
  | Load =>
    intro s f hwf hf
    obtain ⟨f', rfl⟩ : ∃ g, f = g + 1 :=
      ⟨f - 1, by simp [Instruction.encode, InstructionKind.encode] at hf; omega⟩
    rfl
  | Store =>
    intro s f hwf hf
    obtain ⟨f', rfl⟩ : ∃ g, f = g + 1 :=
      ⟨f - 1, by simp [Instruction.encode, InstructionKind.encode] at hf; omega⟩
    rfl
  | Discard =>
    intro s f hwf hf
    obtain ⟨f', rfl⟩ : ∃ g, f = g + 1 :=
      ⟨f - 1, by simp [Instruction.encode, InstructionKind.encode] at hf; omega⟩
    rfl
  | Add =>
    intro s f hwf hf
    obtain ⟨f', rfl⟩ : ∃ g, f = g + 1 :=
      ⟨f - 1, by simp [Instruction.encode, InstructionKind.encode] at hf; omega⟩
    rfl
  | Sub =>
    intro s f hwf hf
    obtain ⟨f', rfl⟩ : ∃ g, f = g + 1 :=
      ⟨f - 1, by simp [Instruction.encode, InstructionKind.encode] at hf; omega⟩
    rfl
  | Mul =>
    intro s f hwf hf
    obtain ⟨f', rfl⟩ : ∃ g, f = g + 1 :=
      ⟨f - 1, by simp [Instruction.encode, InstructionKind.encode] at hf; omega⟩
    rfl
  | Div =>
    intro s f hwf hf
    obtain ⟨f', rfl⟩ : ∃ g, f = g + 1 :=
      ⟨f - 1, by simp [Instruction.encode, InstructionKind.encode] at hf; omega⟩
    rfl
  | Rem =>
    intro s f hwf hf
    obtain ⟨f', rfl⟩ : ∃ g, f = g + 1 :=
      ⟨f - 1, by simp [Instruction.encode, InstructionKind.encode] at hf; omega⟩
    rfl
  | Neg =>
    intro s f hwf hf
    obtain ⟨f', rfl⟩ : ∃ g, f = g + 1 :=
      ⟨f - 1, by simp [Instruction.encode, InstructionKind.encode] at hf; omega⟩
    rfl
  | And =>
    intro s f hwf hf
    obtain ⟨f', rfl⟩ : ∃ g, f = g + 1 :=
      ⟨f - 1, by simp [Instruction.encode, InstructionKind.encode] at hf; omega⟩
    rfl
  | Or =>
    intro s f hwf hf
    obtain ⟨f', rfl⟩ : ∃ g, f = g + 1 :=
      ⟨f - 1, by simp [Instruction.encode, InstructionKind.encode] at hf; omega⟩
    rfl
  | Xor =>
    intro s f hwf hf
    obtain ⟨f', rfl⟩ : ∃ g, f = g + 1 :=
      ⟨f - 1, by simp [Instruction.encode, InstructionKind.encode] at hf; omega⟩
    rfl
  | LShift =>
    intro s f hwf hf
    obtain ⟨f', rfl⟩ : ∃ g, f = g + 1 :=
      ⟨f - 1, by simp [Instruction.encode, InstructionKind.encode] at hf; omega⟩
    rfl
  | RShift =>
    intro s f hwf hf
    obtain ⟨f', rfl⟩ : ∃ g, f = g + 1 :=
      ⟨f - 1, by simp [Instruction.encode, InstructionKind.encode] at hf; omega⟩
    rfl
  | Not =>
    intro s f hwf hf
    obtain ⟨f', rfl⟩ : ∃ g, f = g + 1 :=
      ⟨f - 1, by simp [Instruction.encode, InstructionKind.encode] at hf; omega⟩
    rfl
  | EQ =>
    intro s f hwf hf
    obtain ⟨f', rfl⟩ : ∃ g, f = g + 1 :=
      ⟨f - 1, by simp [Instruction.encode, InstructionKind.encode] at hf; omega⟩
    rfl
  | NEQ =>
    intro s f hwf hf
    obtain ⟨f', rfl⟩ : ∃ g, f = g + 1 :=
      ⟨f - 1, by simp [Instruction.encode, InstructionKind.encode] at hf; omega⟩
    rfl
  | LT =>
    intro s f hwf hf
    obtain ⟨f', rfl⟩ : ∃ g, f = g + 1 :=
      ⟨f - 1, by simp [Instruction.encode, InstructionKind.encode] at hf; omega⟩
    rfl
  | GT =>
    intro s f hwf hf
    obtain ⟨f', rfl⟩ : ∃ g, f = g + 1 :=
      ⟨f - 1, by simp [Instruction.encode, InstructionKind.encode] at hf; omega⟩
    rfl
  | LEQ =>
    intro s f hwf hf
    obtain ⟨f', rfl⟩ : ∃ g, f = g + 1 :=
      ⟨f - 1, by simp [Instruction.encode, InstructionKind.encode] at hf; omega⟩
    rfl
  | GEQ =>
    intro s f hwf hf
    obtain ⟨f', rfl⟩ : ∃ g, f = g + 1 :=
      ⟨f - 1, by simp [Instruction.encode, InstructionKind.encode] at hf; omega⟩
    rfl
  | CallIndirect =>
    intro s f hwf hf
    obtain ⟨f', rfl⟩ : ∃ g, f = g + 1 :=
      ⟨f - 1, by simp [Instruction.encode, InstructionKind.encode] at hf; omega⟩
    rfl
  | Break =>
    intro s f hwf hf
    obtain ⟨f', rfl⟩ : ∃ g, f = g + 1 :=
      ⟨f - 1, by simp [Instruction.encode, InstructionKind.encode] at hf; omega⟩
    rfl
  | Continue =>
    intro s f hwf hf
    obtain ⟨f', rfl⟩ : ∃ g, f = g + 1 :=
      ⟨f - 1, by simp [Instruction.encode, InstructionKind.encode] at hf; omega⟩
    rfl
  | Return =>
    intro s f hwf hf
    obtain ⟨f', rfl⟩ : ∃ g, f = g + 1 :=
      ⟨f - 1, by simp [Instruction.encode, InstructionKind.encode] at hf; omega⟩
    rfl
  | ReturnVoid =>
    intro s f hwf hf
    obtain ⟨f', rfl⟩ : ∃ g, f = g + 1 :=
      ⟨f - 1, by simp [Instruction.encode, InstructionKind.encode] at hf; omega⟩
    rfl
  termination_by structural i

theorem instructionSeqRT (l : InstructionSeq) : ∀ (s : List Nat) (f : Nat),
    InstructionSeq.wfSeq l = true → 2 * l.encodeSeq.length + 1 ≤ f →
    decodeInstructionNFuel f l.length (l.encodeSeq ++ s) = .ok (l, s) := by
  cases l with
  | nil =>
    intro s f hwf hf
    simp [InstructionSeq.encodeSeq, InstructionSeq.length,
      decodeInstructionNFuel]
  | cons i rest =>
    intro s f hwf hf
    simp only [InstructionSeq.wfSeq, Bool.and_eq_true] at hwf
    obtain ⟨hwi, hwrest⟩ := hwf
    simp only [InstructionSeq.encodeSeq, List.length_append,
      List.length_cons] at hf
    have hilen := instruction_encode_length_pos i
    simp only [Instruction.encode, List.length_append,
      InstructionKind.encode, List.length_cons, List.length_nil] at hilen hf
    obtain ⟨f', rfl⟩ : ∃ g, f = g + 1 := ⟨f - 1, by omega⟩
    have hi : decodeInstructionFuel f'
        (Instruction.encode i ++ (rest.encodeSeq ++ s)) =
        .ok (i, rest.encodeSeq ++ s) :=
      instructionRT i (rest.encodeSeq ++ s) f' hwi (by
        simp only [Instruction.encode, List.length_append,
          InstructionKind.encode, List.length_cons, List.length_nil]
        omega)
    have hrest : decodeInstructionNFuel f' rest.length
        (rest.encodeSeq ++ s) = .ok (rest, s) :=
      instructionSeqRT rest s f' hwrest (by omega)
    simp only [InstructionSeq.encodeSeq, InstructionSeq.length,
      List.append_assoc]
    simp only [decodeInstructionNFuel, bind, Except.bind]
    simp only [Instruction.encode, List.append_assoc] at hi
    simp only [hi, hrest]
  termination_by structural l

end

end Bytecode

namespace Bytecode

theorem instruction_decode_encode (i : Instruction) (s : List Nat)
    (hw : Instruction.wf i = true) :
    Instruction.decode (Instruction.encode i ++ s) = .ok (i, s) := by
  refine instructionRT i s _ hw ?_
  simp only [List.length_append]
  omega

theorem instructionSeq_decodeVec (l : InstructionSeq) (s : List Nat)
    (hw : InstructionSeq.wfSeq l = true) (hl : l.length < 2 ^ 64) :
    InstructionSeq.decodeVec (l.encodeVec ++ s) = .ok (l, s) := by
  show decodeInstructionVecFuel _ _ = _
  rw [show 2 * ((InstructionSeq.encodeVec l ++ s)).length + 2 =
      (2 * (InstructionSeq.encodeVec l ++ s).length + 1) + 1 from rfl]
  refine decodeInstructionVecFuel_step l s _ hl ?_
  refine instructionSeqRT l s _ hw ?_
  simp only [InstructionSeq.encodeVec, List.length_append, toLeBytes_length]
  omega

theorem import_encode_eq (name : List Nat) (data : ImportData) :
    Import.encode (.mk name data) =
      encodeStr name ++ (data.get_kind.encode ++ data.encodePayload) := by
  simp [Import.encode, ImportData.encode]

/-- One evaluation step of `decodeImportNFuel` reading a vector header is
not needed; imports are decoded through `decodeU64` directly in
`ImportSeq.decodeVec`. -/
theorem importData_encode_length (d : ImportData) :
    (ImportData.encode d).length = d.encodePayload.length + 1 := by
  simp [ImportData.encode, AliasDataKind.encode]

mutual

theorem importDataRT (d : ImportData) : ∀ (s : List Nat) (f : Nat),
    ImportData.wf d = true → 2 * (ImportData.encode d).length ≤ f →
    decodeImportDataFuel f (ImportData.encode d ++ s) = .ok (d, s) := by
  cases d with
  | Namespace items =>
    intro s f hwf hf
    simp only [ImportData.wf, Bool.and_eq_true, fitsIn,
      decide_eq_true_eq] at hwf
    obtain ⟨hlen, hwitems⟩ := hwf
    simp only [ImportData.encode, ImportData.get_kind,
      AliasDataKind.encode, AliasDataKind.tag, ImportData.encodePayload,
      List.length_cons, List.length_append, toLeBytes_length] at hf
    obtain ⟨f', rfl⟩ : ∃ g, f = g + 1 := ⟨f - 1, by omega⟩
    have hN : decodeImportNFuel f' items.length (items.encodeSeq ++ s) =
        .ok (items, s) := importSeqRT items s f' hwitems (by omega)
    simp only [ImportData.encode, ImportData.get_kind,
      AliasDataKind.encode, AliasDataKind.tag, ImportData.encodePayload,
      List.cons_append, List.nil_append, List.append_assoc]
    simp only [decodeImportDataFuel, AliasDataKind.decode, decodeU8, bind,
      Except.bind, pure, Except.pure, AliasDataKind.ofTag]
    simp only [show ((0 : Nat) ≤ 0 ∧ (0 : Nat) ≤ 2) = True by simp, if_true]
    simp only [decodeU64_toLeBytes items.length (items.encodeSeq ++ s) hlen]
    simp only [hN]
  | Global g_idx t_idx =>
    intro s f hwf hf
    simp only [ImportData.wf, Bool.and_eq_true, fitsIn,
      decide_eq_true_eq] at hwf
    obtain ⟨f', rfl⟩ : ∃ g, f = g + 1 :=
      ⟨f - 1, by simp [ImportData.encode, AliasDataKind.encode] at hf; omega⟩
    simp [ImportData.encode, ImportData.get_kind, AliasDataKind.encode,
      AliasDataKind.tag, ImportData.encodePayload, List.append_assoc,
      decodeImportDataFuel, AliasDataKind.decode, decodeU8, bind,
      Except.bind, pure, Except.pure, AliasDataKind.ofTag, encodeId, decodeId,
      decodeU64_toLeBytes g_idx _ hwf.1, decodeU64_toLeBytes t_idx _ hwf.2]
  | Function f_idx t_idx =>
    intro s f hwf hf
    simp only [ImportData.wf, Bool.and_eq_true, fitsIn,
      decide_eq_true_eq] at hwf
    obtain ⟨f', rfl⟩ : ∃ g, f = g + 1 :=
      ⟨f - 1, by simp [ImportData.encode, AliasDataKind.encode] at hf; omega⟩
    simp [ImportData.encode, ImportData.get_kind, AliasDataKind.encode,
      AliasDataKind.tag, ImportData.encodePayload, List.append_assoc,
      decodeImportDataFuel, AliasDataKind.decode, decodeU8, bind,
      Except.bind, pure, Except.pure, AliasDataKind.ofTag, encodeId, decodeId,
      decodeU64_toLeBytes f_idx _ hwf.1, decodeU64_toLeBytes t_idx _ hwf.2]
  termination_by structural d

theorem importSeqRT (l : ImportSeq) : ∀ (s : List Nat) (f : Nat),
    ImportSeq.wfSeq l = true → 2 * l.encodeSeq.length + 1 ≤ f →
    decodeImportNFuel f l.length (l.encodeSeq ++ s) = .ok (l, s) := by
  cases l with
  | nil =>
    intro s f hwf hf
    simp [ImportSeq.encodeSeq, ImportSeq.length, decodeImportNFuel]
  | cons i rest =>
    cases i with
    | mk name data =>
      intro s f hwf hf
      simp only [ImportSeq.wfSeq, Bool.and_eq_true] at hwf
      obtain ⟨⟨hwname, hwdata⟩, hwrest⟩ := hwf
      simp only [wfStr, Bool.and_eq_true, fitsIn, decide_eq_true_eq] at hwname
      simp only [ImportSeq.encodeSeq, List.length_append, encodeStr,
        toLeBytes_length, AliasDataKind.encode, List.length_cons,
        List.length_nil] at hf
      obtain ⟨f', rfl⟩ : ∃ g, f = g + 1 := ⟨f - 1, by omega⟩
      have hstr : decodeStr (encodeStr name ++
          ((data.get_kind.encode ++ data.encodePayload) ++
            (rest.encodeSeq ++ s))) =
          .ok (name, (data.get_kind.encode ++ data.encodePayload) ++
            (rest.encodeSeq ++ s)) :=
        decodeStr_encodeStr name _ hwname.1 hwname.2
      have hdata : decodeImportDataFuel f' (ImportData.encode data ++
          (rest.encodeSeq ++ s)) = .ok (data, rest.encodeSeq ++ s) :=
        importDataRT data (rest.encodeSeq ++ s) f' hwdata (by
          simp only [importData_encode_length]; omega)
      have hrest : decodeImportNFuel f' rest.length (rest.encodeSeq ++ s) =
          .ok (rest, s) := importSeqRT rest s f' hwrest (by omega)
      simp only [ImportSeq.encodeSeq, ImportSeq.length, List.append_assoc]
      simp only [decodeImportNFuel, bind, Except.bind]
      simp only [List.append_assoc] at hstr
      simp only [hstr]
      simp only [ImportData.encode, List.append_assoc] at hdata
      simp only [hdata, hrest]
  termination_by structural l

end

theorem importData_decode_encode (d : ImportData) (s : List Nat)
    (hw : ImportData.wf d = true) :
    ImportData.decode (ImportData.encode d ++ s) = .ok (d, s) := by
  refine importDataRT d s _ hw ?_
  simp only [List.length_append]
  omega

theorem import_decode_encode (i : Import) (s : List Nat)
    (hwname : wfStr (match i with | .mk name _ => name) = true)
    (hwdata : ImportData.wf (match i with | .mk _ data => data) = true) :
    Import.decode (Import.encode i ++ s) = .ok (i, s) := by
  obtain ⟨name, data⟩ := i
  simp only at hwname hwdata
  simp only [wfStr, Bool.and_eq_true, fitsIn, decide_eq_true_eq] at hwname
  simp only [Import.encode, List.append_assoc, Import.decode, bind,
    Except.bind]
  have hstr := decodeStr_encodeStr name (ImportData.encode data ++ s)
    hwname.1 hwname.2
  simp only [hstr]
  simp only [importData_decode_encode data s hwdata]

theorem importSeq_decodeVec (l : ImportSeq) (s : List Nat)
    (hw : ImportSeq.wfSeq l = true) (hl : l.length < 2 ^ 64) :
    ImportSeq.decodeVec (l.encodeVec ++ s) = .ok (l, s) := by
  simp only [ImportSeq.encodeVec, List.append_assoc, ImportSeq.decodeVec,
    bind, Except.bind, decodeU64_toLeBytes l.length (l.encodeSeq ++ s) hl]
  refine importSeqRT l s _ hw ?_
  simp only [List.length_append]
  omega

mutual

theorem exportDataRT (d : ExportData) : ∀ (s : List Nat) (f : Nat),
    ExportData.wf d = true → 2 * (ExportData.encode d).length ≤ f →
    decodeExportDataFuel f (ExportData.encode d ++ s) = .ok (d, s) := by
  cases d with
  | Namespace items =>
    intro s f hwf hf
    simp only [ExportData.wf, Bool.and_eq_true, fitsIn,
      decide_eq_true_eq] at hwf
    obtain ⟨hlen, hwitems⟩ := hwf
    simp only [ExportData.encode, ExportData.get_kind,
      AliasDataKind.encode, AliasDataKind.tag, ExportData.encodePayload,
      List.length_cons, List.length_append, toLeBytes_length] at hf
    obtain ⟨f', rfl⟩ : ∃ g, f = g + 1 := ⟨f - 1, by omega⟩
    have hN : decodeExportNFuel f' items.length (items.encodeSeq ++ s) =
        .ok (items, s) := exportSeqRT items s f' hwitems (by omega)
    simp only [ExportData.encode, ExportData.get_kind,
      AliasDataKind.encode, AliasDataKind.tag, ExportData.encodePayload,
      List.cons_append, List.nil_append, List.append_assoc]
    simp only [decodeExportDataFuel, AliasDataKind.decode, decodeU8, bind,
      Except.bind, pure, Except.pure, AliasDataKind.ofTag]
    simp only [show ((0 : Nat) ≤ 0 ∧ (0 : Nat) ≤ 2) = True by simp, if_true]
    simp only [decodeU64_toLeBytes items.length (items.encodeSeq ++ s) hlen]
    simp only [hN]
  | Global g_idx =>
    intro s f hwf hf
    simp only [ExportData.wf, fitsIn, decide_eq_true_eq] at hwf
    obtain ⟨f', rfl⟩ : ∃ g, f = g + 1 :=
      ⟨f - 1, by simp [ExportData.encode, AliasDataKind.encode] at hf; omega⟩
    simp [ExportData.encode, ExportData.get_kind, AliasDataKind.encode,
      AliasDataKind.tag, ExportData.encodePayload, List.append_assoc,
      decodeExportDataFuel, AliasDataKind.decode, decodeU8, bind,
      Except.bind, pure, Except.pure, AliasDataKind.ofTag, encodeId, decodeId,
      decodeU64_toLeBytes g_idx _ hwf]
  | Function f_idx =>
    intro s f hwf hf
    simp only [ExportData.wf, fitsIn, decide_eq_true_eq] at hwf
    obtain ⟨f', rfl⟩ : ∃ g, f = g + 1 :=
      ⟨f - 1, by simp [ExportData.encode, AliasDataKind.encode] at hf; omega⟩
    simp [ExportData.encode, ExportData.get_kind, AliasDataKind.encode,
      AliasDataKind.tag, ExportData.encodePayload, List.append_assoc,
      decodeExportDataFuel, AliasDataKind.decode, decodeU8, bind,
      Except.bind, pure, Except.pure, AliasDataKind.ofTag, encodeId, decodeId,
      decodeU64_toLeBytes f_idx _ hwf]
  termination_by structural d

theorem exportSeqRT (l : ExportSeq) : ∀ (s : List Nat) (f : Nat),
    ExportSeq.wfSeq l = true → 2 * l.encodeSeq.length + 1 ≤ f →
    decodeExportNFuel f l.length (l.encodeSeq ++ s) = .ok (l, s) := by
  cases l with
  | nil =>
    intro s f hwf hf
    simp [ExportSeq.encodeSeq, ExportSeq.length, decodeExportNFuel]
  | cons e rest =>
    cases e with
    | mk name data =>
      intro s f hwf hf
      simp only [ExportSeq.wfSeq, Bool.and_eq_true] at hwf
      obtain ⟨⟨hwname, hwdata⟩, hwrest⟩ := hwf
      simp only [wfStr, Bool.and_eq_true, fitsIn, decide_eq_true_eq] at hwname
      simp only [ExportSeq.encodeSeq, List.length_append, encodeStr,
        toLeBytes_length, AliasDataKind.encode, List.length_cons,
        List.length_nil] at hf
      obtain ⟨f', rfl⟩ : ∃ g, f = g + 1 := ⟨f - 1, by omega⟩
      have hstr : decodeStr (encodeStr name ++
          ((data.get_kind.encode ++ data.encodePayload) ++
            (rest.encodeSeq ++ s))) =
          .ok (name, (data.get_kind.encode ++ data.encodePayload) ++
            (rest.encodeSeq ++ s)) :=
        decodeStr_encodeStr name _ hwname.1 hwname.2
      have hdata : decodeExportDataFuel f' (ExportData.encode data ++
          (rest.encodeSeq ++ s)) = .ok (data, rest.encodeSeq ++ s) :=
        exportDataRT data (rest.encodeSeq ++ s) f' hwdata (by
          simp only [ExportData.encode, List.length_append,
            AliasDataKind.encode, List.length_cons, List.length_nil]
          omega)
      have hrest : decodeExportNFuel f' rest.length (rest.encodeSeq ++ s) =
          .ok (rest, s) := exportSeqRT rest s f' hwrest (by omega)
      simp only [ExportSeq.encodeSeq, ExportSeq.length, List.append_assoc]
      simp only [decodeExportNFuel, bind, Except.bind]
      simp only [List.append_assoc] at hstr
      simp only [hstr]
      simp only [ExportData.encode, List.append_assoc] at hdata
      simp only [hdata, hrest]
  termination_by structural l

end

theorem exportSeq_decodeVec (l : ExportSeq) (s : List Nat)
    (hw : ExportSeq.wfSeq l = true) (hl : l.length < 2 ^ 64) :
    ExportSeq.decodeVec (l.encodeVec ++ s) = .ok (l, s) := by
  simp only [ExportSeq.encodeVec, List.append_assoc, ExportSeq.decodeVec,
    bind, Except.bind, decodeU64_toLeBytes l.length (l.encodeSeq ++ s) hl]
  refine exportSeqRT l s _ hw ?_
  simp only [List.length_append]
  omega

theorem global_decode_encode (g : Global) (s : List Nat)
    (hw : Global.wf g = true) :
    Global.decode (Global.encode g ++ s) = .ok (g, s) := by
  obtain ⟨id, ty, initializer⟩ := g
  simp only [Global.wf, Bool.and_eq_true, fitsIn, decide_eq_true_eq] at hw
  obtain ⟨⟨⟨hid, hty⟩, hlen⟩, hwseq⟩ := hw
  simp only [Global.encode, List.append_assoc, Global.decode, bind,
    Except.bind, encodeId, decodeId]
  simp only [decodeU64_toLeBytes id _ hid, decodeU64_toLeBytes ty _ hty]
  simp only [instructionSeq_decodeVec initializer s hwseq hlen]

theorem function_decode_encode (fn : Function) (s : List Nat)
    (hw : Function.wf fn = true) :
    Function.decode (Function.encode fn ++ s) = .ok (fn, s) := by
  obtain ⟨id, ty, body⟩ := fn
  simp only [Function.wf, Bool.and_eq_true, fitsIn, decide_eq_true_eq] at hw
  obtain ⟨⟨⟨hid, hty⟩, hlen⟩, hwseq⟩ := hw
  simp only [Function.encode, List.append_assoc, Function.decode, bind,
    Except.bind, encodeId, decodeId]
  simp only [decodeU64_toLeBytes id _ hid, decodeU64_toLeBytes ty _ hty]
  simp only [instructionSeq_decodeVec body s hwseq hlen]

theorem importModule_decode_encode (im : ImportModule) (s : List Nat)
    (hw : ImportModule.wf im = true) :
    ImportModule.decode (ImportModule.encode im ++ s) = .ok (im, s) := by
  obtain ⟨name, version, items⟩ := im
  simp only [ImportModule.wf, Bool.and_eq_true, wfStr, fitsIn,
    decide_eq_true_eq] at hw
  obtain ⟨⟨⟨⟨hnv, hnl⟩, hver⟩, hil⟩, hiw⟩ := hw
  simp only [ImportModule.encode, List.append_assoc, ImportModule.decode,
    bind, Except.bind]
  simp only [decodeStr_encodeStr name _ hnv hnl]
  simp only [version_decode_encode]
  simp only [importSeq_decodeVec items s hiw hil]

theorem module_decode_encode (m : Module) (s : List Nat)
    (hw : Module.wf m = true) :
    Module.decode (Module.encode m ++ s) = .ok (m, s) := by
  obtain ⟨name, version, types, imports, globals, functions, exports⟩ := m
  simp only [Module.wf, Bool.and_eq_true, wfStr, fitsIn, listWf,
    decide_eq_true_eq, List.all_eq_true] at hw
  obtain ⟨⟨⟨⟨⟨⟨⟨⟨hnv, hnl⟩, hver⟩, htl, htw⟩, hil, hiw⟩, hgl, hgw⟩,
    hfl, hfw⟩, hel⟩, hew⟩ := hw
  simp only [Module.encode, List.append_assoc, Module.decode, bind,
    Except.bind]
  simp only [decodeStr_encodeStr name _ hnv hnl]
  simp only [version_decode_encode]
  simp only [decodeVec_encodeVec Ty.decode Ty.encode types _ htl
    (fun x hx s' => ty_decode_encode x s' (htw x hx))]
  simp only [decodeVec_encodeVec ImportModule.decode ImportModule.encode
    imports _ hil (fun x hx s' => importModule_decode_encode x s' (hiw x hx))]
  simp only [decodeVec_encodeVec Global.decode Global.encode globals _ hgl
    (fun x hx s' => global_decode_encode x s' (hgw x hx))]
  simp only [decodeVec_encodeVec Function.decode Function.encode functions _
    hfl (fun x hx s' => function_decode_encode x s' (hfw x hx))]
  simp only [exportSeq_decodeVec exports s hew hel]

end Bytecode

namespace Bytecode

theorem f32PartialEq_refl (a : Nat) (h : f32BitsNaN a = false) :
    f32PartialEq a a = true := by
  simp [f32PartialEq, h]

theorem f64PartialEq_refl (a : Nat) (h : f64BitsNaN a = false) :
    f64PartialEq a a = true := by
  simp [f64PartialEq, h]

theorem immediateValueBeq_refl (v : ImmediateValue)
    (h : immediateValueNoNaN v = true) : immediateValueBeq v v = true := by
  cases v with
  | Bool x => show (x == x) = true; simp
  | U8 x => show (x == x) = true; simp
  | U16 x => show (x == x) = true; simp
  | U32 x => show (x == x) = true; simp
  | U64 x => show (x == x) = true; simp
  | S8 x => show (x == x) = true; simp
  | S16 x => show (x == x) = true; simp
  | S32 x => show (x == x) = true; simp
  | S64 x => show (x == x) = true; simp
  | F32 x =>
    show f32PartialEq x x = true
    refine f32PartialEq_refl x ?_
    simpa [immediateValueNoNaN] using h
  | F64 x =>
    show f64PartialEq x x = true
    refine f64PartialEq_refl x ?_
    simpa [immediateValueNoNaN] using h

mutual

theorem instructionBeq_refl (i : Instruction) :
    Instruction.noNaN i = true → Instruction.beq i i = true := by
  cases i with
  | ImmediateValue imm =>
    intro h
    simp only [Instruction.noNaN] at h
    show immediateValueBeq imm imm = true
    exact immediateValueBeq_refl imm h
  | IfBlock a b =>
    intro h
    simp only [Instruction.noNaN, Bool.and_eq_true] at h
    show (InstructionSeq.beqSeq a a && InstructionSeq.beqSeq b b) = true
    rw [instructionSeqBeq_refl a h.1, instructionSeqBeq_refl b h.2]
    rfl
  | LoopBlock a =>
    intro h
    simp only [Instruction.noNaN] at h
    show InstructionSeq.beqSeq a a = true
    exact instructionSeqBeq_refl a h
  | NoOp => intro h; rfl
  | CreateLocal x => intro h; show (x == x) = true; simp
  | LocalAddress x => intro h; show (x == x) = true; simp
  | GlobalAddress x => intro h; show (x == x) = true; simp
  | FunctionAddress x => intro h; show (x == x) = true; simp
  | GetElement x => intro h; show (x == x) = true; simp
  | Cast x => intro h; show (x == x) = true; simp
  | CallDirect x => intro h; show (x == x) = true; simp
  | Load => intro h; rfl
  | Store => intro h; rfl
  | Discard => intro h; rfl
  | Add => intro h; rfl
  | Sub => intro h; rfl
  | Mul => intro h; rfl
  | Div => intro h; rfl
  | Rem => intro h; rfl
  | Neg => intro h; rfl
  | And => intro h; rfl
  | Or => intro h; rfl
  | Xor => intro h; rfl
  | LShift => intro h; rfl
  | RShift => intro h; rfl
  | Not => intro h; rfl
  | EQ => intro h; rfl
  | NEQ => intro h; rfl
  | LT => intro h; rfl
  | GT => intro h; rfl
  | LEQ => intro h; rfl
  | GEQ => intro h; rfl
  | CallIndirect => intro h; rfl
  | Break => intro h; rfl
  | Continue => intro h; rfl
  | Return => intro h; rfl
  | ReturnVoid => intro h; rfl
  termination_by structural i

theorem instructionSeqBeq_refl (l : InstructionSeq) :
    InstructionSeq.noNaNSeq l = true → InstructionSeq.beqSeq l l = true := by
  cases l with
  | nil => intro h; rfl
  | cons i rest =>
    intro h
    simp only [InstructionSeq.noNaNSeq, Bool.and_eq_true] at h
    show (Instruction.beq i i && InstructionSeq.beqSeq rest rest) = true
    rw [instructionBeq_refl i h.1, instructionSeqBeq_refl rest h.2]
    rfl
  termination_by structural l

end

mutual

theorem importDataBeq_refl (d : ImportData) : ImportData.beq d d = true := by
  cases d with
  | Namespace items =>
    show ImportSeq.beqSeq items items = true
    exact importSeqBeq_refl items
  | Global g t => show (g == g && t == t) = true; simp
  | Function f t => show (f == f && t == t) = true; simp
  termination_by structural d

theorem importSeqBeq_refl (l : ImportSeq) : ImportSeq.beqSeq l l = true := by
  cases l with
  | nil => rfl
  | cons i rest =>
    cases i with
    | mk name data =>
      show (name == name && ImportData.beq data data &&
        ImportSeq.beqSeq rest rest) = true
      rw [importDataBeq_refl data, importSeqBeq_refl rest]
      simp
  termination_by structural l

end

mutual

theorem exportDataBeq_refl (d : ExportData) : ExportData.beq d d = true := by
  cases d with
  | Namespace items =>
    show ExportSeq.beqSeq items items = true
    exact exportSeqBeq_refl items
  | Global g => show (g == g) = true; simp
  | Function f => show (f == f) = true; simp
  termination_by structural d

theorem exportSeqBeq_refl (l : ExportSeq) : ExportSeq.beqSeq l l = true := by
  cases l with
  | nil => rfl
  | cons e rest =>
    cases e with
    | mk name data =>
      show (name == name && ExportData.beq data data &&
        ExportSeq.beqSeq rest rest) = true
      rw [exportDataBeq_refl data, exportSeqBeq_refl rest]
      simp
  termination_by structural l

end

theorem listBeq_refl {α : Type} (b : α → α → Bool) (l : List α)
    (h : ∀ x, x ∈ l → b x x = true) : listBeq b l l = true := by
  induction l with
  | nil => rfl
  | cons x xs ih =>
    simp only [listBeq, Bool.and_eq_true]
    exact ⟨h x (by simp), ih (fun y hy => h y (by simp [hy]))⟩

theorem moduleBeq_refl (m : Module) (h : Module.noNaN m = true) :
    Module.beq m m = true := by
  simp only [Module.noNaN, Bool.and_eq_true, List.all_eq_true] at h
  simp only [Module.beq, Bool.and_eq_true]
  refine ⟨⟨⟨⟨⟨⟨by simp, by simp⟩, by simp⟩, ?_⟩, ?_⟩, ?_⟩, ?_⟩
  · exact listBeq_refl ImportModule.beq m.imports (fun x _ => by
      simp [ImportModule.beq, importSeqBeq_refl x.items])
  · exact listBeq_refl Global.beq m.globals (fun g hg => by
      simp only [Global.beq, Bool.and_eq_true]
      exact ⟨⟨by simp, by simp⟩,
        instructionSeqBeq_refl g.initializer (h.1 g hg)⟩)
  · exact listBeq_refl Function.beq m.functions (fun fn hfn => by
      simp only [Function.beq, Bool.and_eq_true]
      exact ⟨⟨by simp, by simp⟩,
        instructionSeqBeq_refl fn.body (h.2 fn hfn)⟩)
  · exact exportSeqBeq_refl m.exports

end Bytecode

namespace Common

theorem charIsAscii_utf8Size (c : Char) (h : charIsAscii c = true) :
    c.utf8Size = 1 := by
  simp only [charIsAscii, decide_eq_true_eq] at h
  simp only [Char.utf8Size]
  rw [if_pos]
  exact h

theorem length_le_strByteLength (s : List Char) :
    s.length ≤ strByteLength s := by
  induction s with
  | nil => simp [strByteLength]
  | cons c cs ih =>
    have := Char.utf8Size_pos c
    simp only [strByteLength, List.map_cons, List.sum_cons,
      List.length_cons] at ih ⊢
    omega

theorem all_ascii_strByteLength (s : List Char)
    (h : s.all charIsAscii = true) : strByteLength s = s.length := by
  induction s with
  | nil => simp [strByteLength]
  | cons c cs ih =>
    simp only [List.all_cons, Bool.and_eq_true] at h
    simp only [strByteLength, List.map_cons, List.sum_cons,
      charIsAscii_utf8Size c h.1, List.length_cons] at ih ⊢
    rw [ih h.2]
    omega

end Common

/-! Claim theorems. -/

/-- C2 counterexample: the claim says any nonzero discriminant byte yields
`Some`, but the discriminant byte `2` (nonzero) decodes to `None` — the
decoder reads the discriminant through `bool::decode`, which is strictly
`byte == 1`. -/
theorem C2_counterexample :
    Bytecode.decodeOption Bytecode.decodeU8 [2, 7] = .ok (none, [7]) := rfl

/-- C2 (amended): when decoding an `Option`, a discriminant byte of `1`
yields `Some` of the decoded payload, and any other discriminant byte —
zero or nonzero — yields `None`, because the discriminant is read through
`bool::decode` which tests the byte for equality with `1`. -/
theorem C2_option_discriminant {α : Type}
    (d : List Nat → Except Bytecode.DecodeError (α × List Nat))
    (b : Nat) (r : List Nat) :
    (b ≠ 1 → Bytecode.decodeOption d (b :: r) = .ok (none, r)) ∧
    Bytecode.decodeOption d (1 :: r) =
      (do let (x, r2) ← d r; .ok (some x, r2)) := by
  constructor
  · intro hb
    simp [Bytecode.decodeOption, Bytecode.decodeBool, Bytecode.decodeU8,
      bind, Except.bind, hb]
  · simp [Bytecode.decodeOption, Bytecode.decodeBool, Bytecode.decodeU8,
      bind, Except.bind]

/-- C2 witness: the amended claim at discriminant byte `0` with payload
decoder `u8`. -/
theorem C2_witness :
    (0 : Nat) ≠ 1 ∧
    Bytecode.decodeOption Bytecode.decodeU8 (0 :: [5]) = .ok (none, [5]) :=
  ⟨by decide, (C2_option_discriminant Bytecode.decodeU8 0 [5]).1 (by decide)⟩

/-- C3 counterexample: the claim says looking up the binary precedence of
an operator not in the table returns a sentinel "no precedence" value; in
the code the lookup loop for `Operator::Not` (not in
`BINARY_PRECEDENCES`) runs past the end of the table and panics with an
index out of bounds instead of returning. -/
theorem C3_counterexample :
    Common.get_binary_precedence Common.Operator.Not = .panicked := rfl

/-- C3 (amended): operators present in `BINARY_PRECEDENCES` return their
listed Pratt precedence; an operator not in the table makes
`get_binary_precedence` panic (index out of bounds in the lookup loop)
rather than returning a sentinel. -/
theorem C3_precedence_table :
    (∀ (op : Common.Operator) (p : Nat),
      (op, p) ∈ Common.BINARY_PRECEDENCES →
      Common.get_binary_precedence op = .value p) ∧
    (∀ op : Common.Operator,
      op ∉ Common.BINARY_PRECEDENCES.map Prod.fst →
      Common.get_binary_precedence op = .panicked) := by
  constructor
  · intro op p h
    fin_cases h <;> rfl
  · intro op hop
    cases op <;> first | rfl | (exact absurd (by decide) hop)

/-- C3 witness: `And` is in the table with precedence 20; `Not` is not in
the table and the lookup panics. -/
theorem C3_witness :
    (Common.Operator.And, 20) ∈ Common.BINARY_PRECEDENCES ∧
    Common.get_binary_precedence Common.Operator.And = .value 20 ∧
    Common.Operator.Not ∉ Common.BINARY_PRECEDENCES.map Prod.fst ∧
    Common.get_binary_precedence Common.Operator.Not = .panicked :=
  ⟨by decide, C3_precedence_table.1 Common.Operator.And 20 (by decide),
    by decide, C3_precedence_table.2 Common.Operator.Not (by decide)⟩

/-- C5: decoding an `ImmediateValue` whose leading intrinsic-type tag is
`Void` (byte 0) returns `UnexpectedValue`, and no `ImmediateValue` ever
encodes with a `Void` tag: its intrinsic type is never `Void` and the
first emitted byte is that type's tag, which is never 0. -/
theorem C5_void_immediate :
    (∀ r : List Nat,
      Bytecode.ImmediateValue.decode (0 :: r) = .error .UnexpectedValue) ∧
    (∀ v : Bytecode.ImmediateValue,
      decide (v.get_intrinsic_type = Bytecode.IntrinsicType.Void) = false ∧
      (Bytecode.ImmediateValue.encode v).head? =
        some v.get_intrinsic_type.tag ∧
      decide (v.get_intrinsic_type.tag = 0) = false) := by
  constructor
  · intro r; rfl
  · intro v
    cases v <;> exact ⟨rfl, rfl, rfl⟩

/-- C6: `Identifier::set` fails (returns `false`, no exception) on any
string longer than 64 bytes or containing a non-ASCII char;
`Identifier::append` fails on a non-ASCII char or when the identifier
already holds 64 bytes; and on success both return `true` and leave the
identifier at most 64 ASCII bytes long. -/
theorem C6_identifier_bounds :
    (∀ (i : Common.Identifier) (s : List Char),
      Common.strByteLength s > Common.MAX_LENGTH → (i.set s).1 = false) ∧
    (∀ (i : Common.Identifier) (s : List Char),
      s.all Common.charIsAscii = false → (i.set s).1 = false) ∧
    (∀ (i : Common.Identifier) (s : List Char), (i.set s).1 = true →
      (i.set s).2.vec.length ≤ Common.MAX_LENGTH ∧
      ∀ b ∈ (i.set s).2.vec, b < 128) ∧
    (∀ (i : Common.Identifier) (c : Char),
      Common.charIsAscii c = false → (i.append c).1 = false) ∧
    (∀ (i : Common.Identifier) (c : Char),
      Common.MAX_LENGTH ≤ i.vec.length → (i.append c).1 = false) ∧
    (∀ (i : Common.Identifier) (c : Char), (i.append c).1 = true →
      (i.append c).2.vec.length ≤ Common.MAX_LENGTH ∧
      ((∀ b ∈ i.vec, b < 128) → ∀ b ∈ (i.append c).2.vec, b < 128)) := by
  refine ⟨?_, ?_, ?_, ?_, ?_, ?_⟩
  · intro i s h
    rw [Common.Identifier.set, if_pos h]
  · intro i s h
    rw [Common.Identifier.set]
    split
    · rfl
    · rw [h]
      simp
  · intro i s h
    by_cases h1 : Common.strByteLength s > Common.MAX_LENGTH
    · rw [Common.Identifier.set, if_pos h1] at h
      simp at h
    · by_cases h2 : s.all Common.charIsAscii = true
      · have hres : i.set s = (true, ⟨s.map Common.charAsU8⟩) := by
          rw [Common.Identifier.set, if_neg h1, if_pos h2]
        rw [hres]
        constructor
        · simp only [List.length_map]
          rw [show s.length = Common.strByteLength s from
            (Common.all_ascii_strByteLength s h2).symm]
          omega
        · intro b hb
          simp only [List.mem_map] at hb
          obtain ⟨c, hc, rfl⟩ := hb
          have hca : Common.charIsAscii c = true := by
            have := List.all_eq_true.mp h2 c hc
            simpa using this
          simp only [Common.charIsAscii, decide_eq_true_eq] at hca
          simp only [Common.charAsU8]
          omega
      · rw [Common.Identifier.set, if_neg h1] at h
        rw [if_neg (by simpa using h2)] at h
        simp at h
  · intro i c h
    rw [Common.Identifier.append]
    rw [if_neg (by simp [h])]
  · intro i c h
    have hneg : ¬ ((decide (i.vec.length < Common.MAX_LENGTH) &&
        Common.charIsAscii c) = true) := by
      simp only [Bool.and_eq_true, decide_eq_true_eq, not_and]
      intro hlt
      exact absurd hlt (by omega)
    rw [Common.Identifier.append, if_neg hneg]
  · intro i c h
    by_cases hcond :
        (decide (i.vec.length < Common.MAX_LENGTH) && Common.charIsAscii c) = true
    · have hres : i.append c = (true, ⟨i.vec ++ [Common.charAsU8 c]⟩) := by
        rw [Common.Identifier.append, if_pos hcond]
      simp only [Bool.and_eq_true, decide_eq_true_eq] at hcond
      rw [hres]
      constructor
      · simp only [List.length_append, List.length_cons, List.length_nil]
        simp only [Common.MAX_LENGTH] at hcond ⊢
        omega
      · intro hold b hb
        simp only [List.mem_append, List.mem_cons] at hb
        rcases hb with hb | hb
        · exact hold b hb
        · have hb' : b = Common.charAsU8 c := by simpa using hb
          subst hb'
          have hca := hcond.2
          simp only [Common.charIsAscii, decide_eq_true_eq] at hca
          simp only [Common.charAsU8]
          omega
    · rw [Common.Identifier.append, if_neg hcond] at h
      simp at h

/-- C6 witness: `set` rejects a 65-byte ASCII string and `append` rejects
a non-ASCII char, on the empty identifier. -/
theorem C6_witness :
    Common.strByteLength (List.replicate 65 'a') > Common.MAX_LENGTH ∧
    (Common.Identifier.new.set (List.replicate 65 'a')).1 = false ∧
    Common.charIsAscii 'é' = false ∧
    (Common.Identifier.new.append 'é').1 = false :=
  ⟨by decide, C6_identifier_bounds.1 Common.Identifier.new
      (List.replicate 65 'a') (by decide),
    by decide, C6_identifier_bounds.2.2.2.1 Common.Identifier.new 'é'
      (by decide)⟩

/-- C10: `From<&str>` for `Identifier` silently swallows validation
failure — for a non-ASCII or over-64-byte input it returns the empty
identifier (the boolean result of `set` is discarded, and `set` leaves
the fresh identifier untouched when it fails). -/
theorem C10_fromStr_swallows (s : List Char)
    (h : Common.strByteLength s > Common.MAX_LENGTH ∨
      s.all Common.charIsAscii = false) :
    Common.Identifier.fromStr s = Common.Identifier.new := by
  unfold Common.Identifier.fromStr
  cases h with
  | inl h1 => rw [Common.Identifier.set, if_pos h1]
  | inr h2 =>
    rw [Common.Identifier.set]
    split
    · rfl
    · rw [h2]
      rfl

/-- C10 witness: `Identifier::from` on a 1-char non-ASCII string returns
the empty identifier. -/
theorem C10_witness :
    (['é'].all Common.charIsAscii = false) ∧
    Common.Identifier.fromStr ['é'] = Common.Identifier.new :=
  ⟨by decide, C10_fromStr_swallows ['é'] (Or.inr (by decide))⟩

/-- C4: for each tagged sum type (`TypeDataKind`, `IntrinsicType`,
`AliasDataKind`, `InstructionKind`), decoding a byte inside the declared
tag range returns the variant with that tag number, and decoding a byte
outside the range returns `UnexpectedValue`. -/
theorem C4_tag_ranges :
    (∀ (b : Nat) (r : List Nat), b ≤ 3 →
      Bytecode.TypeDataKind.decode (b :: r) =
        .ok (Bytecode.TypeDataKind.ofTag b, r) ∧
      (Bytecode.TypeDataKind.ofTag b).tag = b) ∧
    (∀ (b : Nat) (r : List Nat), 3 < b →
      Bytecode.TypeDataKind.decode (b :: r) = .error .UnexpectedValue) ∧
    (∀ (b : Nat) (r : List Nat), b ≤ 11 →
      Bytecode.IntrinsicType.decode (b :: r) =
        .ok (Bytecode.IntrinsicType.ofTag b, r) ∧
      (Bytecode.IntrinsicType.ofTag b).tag = b) ∧
    (∀ (b : Nat) (r : List Nat), 11 < b →
      Bytecode.IntrinsicType.decode (b :: r) = .error .UnexpectedValue) ∧
    (∀ (b : Nat) (r : List Nat), b ≤ 2 →
      Bytecode.AliasDataKind.decode (b :: r) =
        .ok (Bytecode.AliasDataKind.ofTag b, r) ∧
      (Bytecode.AliasDataKind.ofTag b).tag = b) ∧
    (∀ (b : Nat) (r : List Nat), 2 < b →
      Bytecode.AliasDataKind.decode (b :: r) = .error .UnexpectedValue) ∧
    (∀ (b : Nat) (r : List Nat), b ≤ 36 →
      Bytecode.InstructionKind.decode (b :: r) =
        .ok (Bytecode.InstructionKind.ofTag b, r) ∧
      (Bytecode.InstructionKind.ofTag b).tag = b) ∧
    (∀ (b : Nat) (r : List Nat), 36 < b →
      Bytecode.InstructionKind.decode (b :: r) = .error .UnexpectedValue) := by
  refine ⟨?_, ?_, ?_, ?_, ?_, ?_, ?_, ?_⟩
  · intro b r hb
    interval_cases b <;> exact ⟨rfl, rfl⟩
  · intro b r hb
    simp only [Bytecode.TypeDataKind.decode, Bytecode.decodeU8, bind,
      Except.bind]
    rw [if_neg (by omega)]
  · intro b r hb
    interval_cases b <;> exact ⟨rfl, rfl⟩
  · intro b r hb
    simp only [Bytecode.IntrinsicType.decode, Bytecode.decodeU8, bind,
      Except.bind]
    rw [if_neg (by omega)]
  · intro b r hb
    interval_cases b <;> exact ⟨rfl, rfl⟩
  · intro b r hb
    simp only [Bytecode.AliasDataKind.decode, Bytecode.decodeU8, bind,
      Except.bind]
    rw [if_neg (by omega)]
  · intro b r hb
    interval_cases b <;> exact ⟨rfl, rfl⟩
  · intro b r hb
    simp only [Bytecode.InstructionKind.decode, Bytecode.decodeU8, bind,
      Except.bind]
    rw [if_neg (by omega)]

/-- C4 witness: a byte inside and a byte outside the range for each of
the four tagged sum types (the out-of-range byte `0xFF` is spec scenario
S2). -/
theorem C4_witness :
    (Bytecode.TypeDataKind.decode (2 :: [9]) =
        .ok (Bytecode.TypeDataKind.ofTag 2, [9]) ∧
      (Bytecode.TypeDataKind.ofTag 2).tag = 2) ∧
    Bytecode.TypeDataKind.decode (255 :: []) = .error .UnexpectedValue ∧
    (Bytecode.IntrinsicType.decode (11 :: [3]) =
        .ok (Bytecode.IntrinsicType.ofTag 11, [3]) ∧
      (Bytecode.IntrinsicType.ofTag 11).tag = 11) ∧
    Bytecode.IntrinsicType.decode (255 :: []) = .error .UnexpectedValue ∧
    (Bytecode.AliasDataKind.decode (1 :: []) =
        .ok (Bytecode.AliasDataKind.ofTag 1, []) ∧
      (Bytecode.AliasDataKind.ofTag 1).tag = 1) ∧
    Bytecode.AliasDataKind.decode (255 :: []) = .error .UnexpectedValue ∧
    (Bytecode.InstructionKind.decode (36 :: [0]) =
        .ok (Bytecode.InstructionKind.ofTag 36, [0]) ∧
      (Bytecode.InstructionKind.ofTag 36).tag = 36) ∧
    Bytecode.InstructionKind.decode (255 :: []) = .error .UnexpectedValue :=
  ⟨C4_tag_ranges.1 2 [9] (by decide),
    C4_tag_ranges.2.1 255 [] (by decide),
    C4_tag_ranges.2.2.1 11 [3] (by decide),
    C4_tag_ranges.2.2.2.1 255 [] (by decide),
    C4_tag_ranges.2.2.2.2.1 1 [] (by decide),
    C4_tag_ranges.2.2.2.2.2.1 255 [] (by decide),
    C4_tag_ranges.2.2.2.2.2.2.1 36 [0] (by decide),
    C4_tag_ranges.2.2.2.2.2.2.2 255 [] (by decide)⟩

/-- C9: decoding consumes exactly the bytes encoding produced — for the
`u8` primitive, for strings, for `u64` vectors, and for whole `Module`s,
decoding `encode(v) ++ s` succeeds, returns `v`, and leaves the cursor
exactly at the suffix `s`. -/
theorem C9_decode_consumes_encoded :
    (∀ (b : Nat) (s : List Nat), Bytecode.decodeU8 (b :: s) = .ok (b, s)) ∧
    (∀ (bs : List Nat) (s : List Nat), Bytecode.utf8Valid bs = true →
      bs.length < 2 ^ 64 →
      Bytecode.decodeStr (Bytecode.encodeStr bs ++ s) = .ok (bs, s)) ∧
    (∀ (l : List Nat) (s : List Nat), l.length < 2 ^ 64 →
      (∀ x ∈ l, x < 2 ^ 64) →
      Bytecode.decodeVec Bytecode.decodeU64
        (Bytecode.encodeVec (Bytecode.toLeBytes 8) l ++ s) = .ok (l, s)) ∧
    (∀ (m : Bytecode.Module) (s : List Nat), Bytecode.Module.wf m = true →
      Bytecode.Module.decode (Bytecode.Module.encode m ++ s) = .ok (m, s)) := by
  refine ⟨?_, ?_, ?_, ?_⟩
  · intro b s
    exact Bytecode.decodeU8_cons b s
  · intro bs s hv hl
    exact Bytecode.decodeStr_encodeStr bs s hv hl
  · intro l s hl hx
    exact Bytecode.decodeVec_encodeVec Bytecode.decodeU64
      (Bytecode.toLeBytes 8) l s hl
      (fun x hmem s' => Bytecode.decodeU64_toLeBytes x s' (hx x hmem))
  · intro m s hw
    exact Bytecode.module_decode_encode m s hw

/-- C9 witness: each conjunct applied at a concrete value with a
non-empty suffix, including the repository's test module. -/
theorem C9_witness :
    Bytecode.decodeU8 (7 :: [1]) = .ok (7, [1]) ∧
    Bytecode.utf8Valid [97, 98] = true ∧
    Bytecode.decodeStr (Bytecode.encodeStr [97, 98] ++ [5]) =
      .ok ([97, 98], [5]) ∧
    Bytecode.decodeVec Bytecode.decodeU64
      (Bytecode.encodeVec (Bytecode.toLeBytes 8) [1, 2] ++ [9]) =
      .ok ([1, 2], [9]) ∧
    Bytecode.Module.wf Bytecode.testModule = true ∧
    Bytecode.Module.decode (Bytecode.Module.encode Bytecode.testModule ++ [7]) =
      .ok (Bytecode.testModule, [7]) :=
  ⟨C9_decode_consumes_encoded.1 7 [1],
    rfl,
    C9_decode_consumes_encoded.2.1 [97, 98] [5] rfl (by decide),
    C9_decode_consumes_encoded.2.2.1 [1, 2] [9] (by decide)
      (by intro x hx; fin_cases hx <;> decide),
    rfl,
    C9_decode_consumes_encoded.2.2.2 Bytecode.testModule [7] rfl⟩

/-- C1 counterexample: decoding the encoding of `nanModule` (a module
whose single global initializer is the `f64` NaN immediate) succeeds and
returns the bit-identical module, yet under the code's `PartialEq` — the
equality `assert_eq!` uses, in which NaN is unequal to itself — the
decoded module is not equal to the original; so "decode(encode(m)) == m"
fails at this module. -/
theorem C1_counterexample :
    Bytecode.Module.decode (Bytecode.Module.encode Bytecode.nanModule) =
      .ok (Bytecode.nanModule, []) ∧
    Bytecode.Module.beq Bytecode.nanModule Bytecode.nanModule = false :=
  ⟨rfl, rfl⟩

/-- C1 (amended): for every well-formed bytecode `Module` `m`, decoding
`encode(m)` succeeds, consumes the whole buffer, and returns the
bit-identical module; the decoded module is moreover `PartialEq`-equal to
`m` whenever `m` contains no NaN float immediate. -/
theorem C1_module_roundtrip (m : Bytecode.Module)
    (h : Bytecode.Module.wf m = true) :
    Bytecode.Module.decode (Bytecode.Module.encode m) = .ok (m, []) ∧
    (Bytecode.Module.noNaN m = true → Bytecode.Module.beq m m = true) := by
  constructor
  · have hrt := Bytecode.module_decode_encode m [] h
    simpa using hrt
  · intro hn
    exact Bytecode.moduleBeq_refl m hn

/-- C1 witness: the amended claim at the repository's test module. -/
theorem C1_witness :
    Bytecode.Module.wf Bytecode.testModule = true ∧
    Bytecode.Module.noNaN Bytecode.testModule = true ∧
    (Bytecode.Module.decode (Bytecode.Module.encode Bytecode.testModule) =
        .ok (Bytecode.testModule, []) ∧
      (Bytecode.Module.noNaN Bytecode.testModule = true →
        Bytecode.Module.beq Bytecode.testModule Bytecode.testModule = true)) :=
  ⟨rfl, rfl, C1_module_roundtrip Bytecode.testModule rfl⟩

namespace Analyzer

theorem getEntry_setEntryBound (b : List BindEntry) (id : Common.Identifier)
    (k : GlobalKey) (o : SourceRegion) :
    getEntry (setEntryBound b id k o) id = some k := by
  induction b with
  | nil => simp [setEntryBound, getEntry]
  | cons e rest ih =>
    obtain ⟨id', k', o'⟩ := e
    by_cases h : id' = id
    · simp [setEntryBound, h, getEntry]
    · simp only [setEntryBound, if_neg h, getEntry]
      exact ih

theorem lookupAnon_mem (l : List (TypeData × GlobalKey)) (td : TypeData)
    (k : GlobalKey) (h : lookupAnon l td = some k) : (td, k) ∈ l := by
  induction l with
  | nil => simp [lookupAnon] at h
  | cons e rest ih =>
    obtain ⟨td', k'⟩ := e
    simp only [lookupAnon] at h
    split at h
    · next heq =>
      obtain rfl := heq
      simp only [Option.some.injEq] at h
      subst h
      simp
    · simp [ih h]

theorem lookupAnon_append_of_none (l : List (TypeData × GlobalKey))
    (td : TypeData) (k : GlobalKey) (h : lookupAnon l td = none) :
    lookupAnon (l ++ [(td, k)]) td = some k := by
  induction l with
  | nil => simp [lookupAnon]
  | cons e rest ih =>
    obtain ⟨td', k'⟩ := e
    simp only [lookupAnon] at h
    split at h
    · simp at h
    · next hne =>
      simp only [List.cons_append, lookupAnon]
      rw [if_neg hne]
      exact ih h

theorem lookupAnon_append_ne (l : List (TypeData × GlobalKey))
    (td td' : TypeData) (k : GlobalKey) (h : lookupAnon l td' = none)
    (hne : td ≠ td') :
    lookupAnon (l ++ [(td, k)]) td' = none := by
  induction l with
  | nil => simp [lookupAnon, hne]
  | cons e rest ih =>
    obtain ⟨td'', k''⟩ := e
    simp only [lookupAnon] at h
    split at h
    · simp at h
    · next hne2 =>
      simp only [List.cons_append, lookupAnon]
      rw [if_neg hne2]
      exact ih h

/-- When the new item is an anonymous type whose data is already interned,
`create_item` returns the existing key and inserts nothing. -/
theorem create_item_anon_found (st : AnalyzerState) (id : Common.Identifier)
    (o : SourceRegion) (td : TypeData) (k0 : GlobalKey)
    (ha : td.is_anon = true) (hl : lookupAnon st.anon_types td = some k0)
    (k : GlobalKey) (st' : AnalyzerState)
    (h : create_item st id (.TypeItem (some td)) o = some (k, st')) :
    k = k0 ∧ st'.items = st.items ∧ st'.anon_types = st.anon_types := by
  unfold create_item at h
  simp only [ha, hl, if_true] at h
  split at h
  · exact absurd h (by simp)
  · simp only [Option.some.injEq, Prod.mk.injEq] at h
    obtain ⟨rfl, rfl⟩ := h
    exact ⟨rfl, rfl, rfl⟩

/-- When the new item is an anonymous type whose data is not yet interned,
`create_item` inserts it at the fresh arena key and interns it. -/
theorem create_item_anon_new (st : AnalyzerState) (id : Common.Identifier)
    (o : SourceRegion) (td : TypeData)
    (ha : td.is_anon = true) (hl : lookupAnon st.anon_types td = none)
    (k : GlobalKey) (st' : AnalyzerState)
    (h : create_item st id (.TypeItem (some td)) o = some (k, st')) :
    k = st.items.length ∧
    st'.items = st.items ++ [.TypeItem (some td)] ∧
    st'.anon_types = st.anon_types ++ [(td, st.items.length)] := by
  unfold create_item at h
  simp only [ha, hl, if_true] at h
  split at h
  · exact absurd h (by simp)
  · simp only [Option.some.injEq, Prod.mk.injEq] at h
    obtain ⟨rfl, rfl⟩ := h
    exact ⟨rfl, rfl, rfl⟩

end Analyzer

/-- C7: calling `create_item` with an identifier already present in the
active module's local bindings emits exactly one error diagnostic — of
`Error` severity, citing the prior item's kind and its bind location —
and still installs the new item, binding the identifier to the returned
key, which is valid in the arena (shadowing is reported, not prevented).
The hypotheses are the arena-consistency facts the Rust `expect`s
assume. -/
theorem C7_shadow_reporting (st : Analyzer.AnalyzerState)
    (identifier : Common.Identifier) (new_item : Analyzer.GlobalItem)
    (origin : Analyzer.SourceRegion) (sk : Analyzer.GlobalKey)
    (item : Analyzer.GlobalItem) (loc : Analyzer.SourceRegion)
    (hsk : Analyzer.getEntry st.local_bindings identifier = some sk)
    (hitem : st.items.get? sk = some item)
    (hloc : Analyzer.getBindLocation st.local_bindings sk = some loc)
    (hanon : ∀ td k, (td, k) ∈ st.anon_types → k < st.items.length) :
    ∃ key st', Analyzer.create_item st identifier new_item origin =
        some (key, st') ∧
      st'.messages = st.messages ++
        [⟨origin, .Error, new_item.kind, identifier, item.kind, loc⟩] ∧
      Analyzer.getEntry st'.local_bindings identifier = some key ∧
      key < st'.items.length := by
  unfold Analyzer.create_item
  simp only [hsk, hitem, hloc]
  cases new_item with
  | TypeItem data =>
    cases data with
    | none =>
      refine ⟨st.items.length, _, rfl, rfl,
        Analyzer.getEntry_setEntryBound _ _ _ _, ?_⟩
      simp
    | some td =>
      by_cases ha : td.is_anon = true
      · cases hl : Analyzer.lookupAnon st.anon_types td with
        | none =>
          simp only [ha, hl, if_true]
          refine ⟨st.items.length, _, rfl, rfl,
            Analyzer.getEntry_setEntryBound _ _ _ _, ?_⟩
          simp
        | some k0 =>
          simp only [ha, hl, if_true]
          refine ⟨k0, _, rfl, rfl,
            Analyzer.getEntry_setEntryBound _ _ _ _, ?_⟩
          exact hanon td k0 (Analyzer.lookupAnon_mem _ td k0 hl)
      · simp only [Bool.not_eq_true] at ha
        simp only [ha, Bool.false_eq_true, if_false]
        refine ⟨st.items.length, _, rfl, rfl,
          Analyzer.getEntry_setEntryBound _ _ _ _, ?_⟩
        simp
  | Module =>
    refine ⟨st.items.length, _, rfl, rfl,
      Analyzer.getEntry_setEntryBound _ _ _ _, ?_⟩
    simp
  | Namespace =>
    refine ⟨st.items.length, _, rfl, rfl,
      Analyzer.getEntry_setEntryBound _ _ _ _, ?_⟩
    simp
  | Global =>
    refine ⟨st.items.length, _, rfl, rfl,
      Analyzer.getEntry_setEntryBound _ _ _ _, ?_⟩
    simp
  | Function =>
    refine ⟨st.items.length, _, rfl, rfl,
      Analyzer.getEntry_setEntryBound _ _ _ _, ?_⟩
    simp
  | Pseudonym =>
    refine ⟨st.items.length, _, rfl, rfl,
      Analyzer.getEntry_setEntryBound _ _ _ _, ?_⟩
    simp

/-- C7 witness: a state with one bound item `f` (a `Global` bound at
region 5), shadowed by a new `Function` item. -/
theorem C7_witness :
    Analyzer.getEntry
      ([(⟨[102]⟩, 0, 5)] : List Analyzer.BindEntry) ⟨[102]⟩ = some 0 ∧
    ([Analyzer.GlobalItem.Global].get? 0 = some .Global) ∧
    (∃ key st',
      Analyzer.create_item
        ⟨[.Global], [], [(⟨[102]⟩, 0, 5)], []⟩ ⟨[102]⟩ .Function 9 =
          some (key, st') ∧
      st'.messages = [] ++
        [⟨9, .Error, Analyzer.GlobalItemKind.Function, ⟨[102]⟩,
          Analyzer.GlobalItemKind.Global, 5⟩] ∧
      Analyzer.getEntry st'.local_bindings ⟨[102]⟩ = some key ∧
      key < st'.items.length) :=
  ⟨rfl, rfl,
    C7_shadow_reporting ⟨[.Global], [], [(⟨[102]⟩, 0, 5)], []⟩ ⟨[102]⟩
      .Function 9 0 .Global 5 rfl rfl rfl (by simp)⟩

/-- C8: anonymous-type interning is canonical — two consecutive
`create_item` calls with structurally equal anonymous `TypeData` return
the same key and the second inserts nothing into the arena, while two
calls with structurally distinct anonymous `TypeData` (neither interned
beforehand) return distinct keys. -/
theorem C8_anon_interning (st : Analyzer.AnalyzerState)
    (id1 id2 : Common.Identifier) (o1 o2 : Analyzer.SourceRegion)
    (td td' : Analyzer.TypeData)
    (ha : td.is_anon = true) (ha' : td'.is_anon = true)
    (k1 k2 : Analyzer.GlobalKey) (st1 st2 : Analyzer.AnalyzerState) :
    (Analyzer.create_item st id1 (.TypeItem (some td)) o1 = some (k1, st1) →
      Analyzer.create_item st1 id2 (.TypeItem (some td)) o2 = some (k2, st2) →
      k2 = k1 ∧ st2.items = st1.items) ∧
    (td ≠ td' →
      Analyzer.lookupAnon st.anon_types td = none →
      Analyzer.lookupAnon st.anon_types td' = none →
      Analyzer.create_item st id1 (.TypeItem (some td)) o1 = some (k1, st1) →
      Analyzer.create_item st1 id2 (.TypeItem (some td')) o2 = some (k2, st2) →
      k1 ≠ k2) := by
  constructor
  · intro h1 h2
    cases hl : Analyzer.lookupAnon st.anon_types td with
    | some k0 =>
      obtain ⟨hk1, hi1, hn1⟩ :=
        Analyzer.create_item_anon_found st id1 o1 td k0 ha hl k1 st1 h1
      have hl1 : Analyzer.lookupAnon st1.anon_types td = some k0 := by
        rw [hn1]; exact hl
      obtain ⟨hk2, hi2, -⟩ :=
        Analyzer.create_item_anon_found st1 id2 o2 td k0 ha hl1 k2 st2 h2
      exact ⟨by rw [hk1, hk2], hi2⟩
    | none =>
      obtain ⟨hk1, hi1, hn1⟩ :=
        Analyzer.create_item_anon_new st id1 o1 td ha hl k1 st1 h1
      have hl1 : Analyzer.lookupAnon st1.anon_types td =
          some st.items.length := by
        rw [hn1]
        exact Analyzer.lookupAnon_append_of_none st.anon_types td _ hl
      obtain ⟨hk2, hi2, -⟩ :=
        Analyzer.create_item_anon_found st1 id2 o2 td st.items.length ha
          hl1 k2 st2 h2
      exact ⟨by rw [hk1, hk2], hi2⟩
  · intro hne hl hl' h1 h2
    obtain ⟨hk1, hi1, hn1⟩ :=
      Analyzer.create_item_anon_new st id1 o1 td ha hl k1 st1 h1
    have hl1 : Analyzer.lookupAnon st1.anon_types td' = none := by
      rw [hn1]
      exact Analyzer.lookupAnon_append_ne st.anon_types td td' _ hl' hne
    obtain ⟨hk2, -, -⟩ :=
      Analyzer.create_item_anon_new st1 id2 o2 td' ha' hl1 k2 st2 h2
    have hlen : st1.items.length = st.items.length + 1 := by
      rw [hi1]
      simp
    rw [hk1, hk2, hlen]
    intro hEq
    simp at hEq

/-- C8 witness: from the empty analyzer state, interning `Pointer 0`
twice returns key 0 both times with an unchanged arena, while interning
`Pointer 0` and then `Pointer 1` returns the distinct keys 0 and 1. -/
theorem C8_witness :
    ((0 : Analyzer.GlobalKey) = 0 ∧
      ([Analyzer.GlobalItem.TypeItem (some (.Pointer 0))] =
        [Analyzer.GlobalItem.TypeItem (some (.Pointer 0))])) ∧
    (0 : Analyzer.GlobalKey) ≠ 1 :=
  ⟨(C8_anon_interning ⟨[], [], [], []⟩ ⟨[97]⟩ ⟨[98]⟩ 0 0
      (.Pointer 0) (.Pointer 0) rfl rfl 0 0
      ⟨[.TypeItem (some (.Pointer 0))], [(.Pointer 0, 0)],
        [(⟨[97]⟩, 0, 0)], []⟩
      ⟨[.TypeItem (some (.Pointer 0))], [(.Pointer 0, 0)],
        [(⟨[97]⟩, 0, 0), (⟨[98]⟩, 0, 0)], []⟩).1 rfl rfl,
    (C8_anon_interning ⟨[], [], [], []⟩ ⟨[97]⟩ ⟨[98]⟩ 0 0
      (.Pointer 0) (.Pointer 1) rfl rfl 0 1
      ⟨[.TypeItem (some (.Pointer 0))], [(.Pointer 0, 0)],
        [(⟨[97]⟩, 0, 0)], []⟩
      ⟨[.TypeItem (some (.Pointer 0)), .TypeItem (some (.Pointer 1))],
        [(.Pointer 0, 0), (.Pointer 1, 1)],
        [(⟨[97]⟩, 0, 0), (⟨[98]⟩, 1, 0)], []⟩).2
      (by decide) rfl rfl rfl rfl⟩
